import Mathlib

/-!
# CopyArena backend — a shallow embedding of the ingestion and replication core

This development embeds the core server logic of the CopyArena copy-trading
backend (`backend/app.py` together with the data model of `backend/models.py`
and the session hub of `backend/websocket_manager.py`) as executable Lean
definitions, and proves or refutes the specification claims about it.

Modelling conventions:

* Database rows are records in lists, in insertion order; SQLAlchemy's
  `query(...).first()` is `List.find?`, row mutation is `updateFirst`,
  `db.add` is list append.  Integer primary keys are tracked with explicit
  `next_*_id` counters.
* Python floats are modelled as rationals (`ℚ`); Python `datetime` values are
  modelled by their ISO-format strings (so `isoformat()` is the identity and
  `datetime.utcnow()` is an explicit `now : String` parameter).
* JSON scalars whose Python truthiness matters (tickets, type tags) are the
  inductive `RawVal`; `str(x)` is `RawVal.toStr` and Python truthiness is
  `RawVal.truthy`.
* The session hub's `client_connections` map is the list of user ids holding a
  live command channel; `is_client_connected` is list membership.
* `hashlib.sha256(s.encode()).hexdigest()` is implemented in full
  (`sha256Hex`), operating on the UTF-8 bytes of the string.
-/

namespace CopyArena

/-! ## SHA-256 over byte lists -/

/-- Truncate to a 32-bit word. -/
def w32 (n : Nat) : Nat := n % 4294967296

/-- Rotate a 32-bit word right by `n` bits. -/
def rotr32 (x n : Nat) : Nat := w32 ((x >>> n) ||| (x <<< (32 - n)))

/-- SHA-256 choice function. -/
def ch32 (x y z : Nat) : Nat := (x &&& y) ^^^ ((x ^^^ 4294967295) &&& z)

/-- SHA-256 majority function. -/
def maj32 (x y z : Nat) : Nat := (x &&& y) ^^^ (x &&& z) ^^^ (y &&& z)

/-- SHA-256 big sigma 0. -/
def bsig0 (x : Nat) : Nat := rotr32 x 2 ^^^ rotr32 x 13 ^^^ rotr32 x 22

/-- SHA-256 big sigma 1. -/
def bsig1 (x : Nat) : Nat := rotr32 x 6 ^^^ rotr32 x 11 ^^^ rotr32 x 25

/-- SHA-256 small sigma 0. -/
def ssig0 (x : Nat) : Nat := rotr32 x 7 ^^^ rotr32 x 18 ^^^ (x >>> 3)

/-- SHA-256 small sigma 1. -/
def ssig1 (x : Nat) : Nat := rotr32 x 17 ^^^ rotr32 x 19 ^^^ (x >>> 10)

/-- The 64 SHA-256 round constants (FIPS 180-4), written in decimal. -/
def sha256K : List Nat :=
  [1116352408, 1899447441, 3049323471, 3921009573, 961987163, 1508970993,
   2453635748, 2870763221, 3624381080, 310598401, 607225278, 1426881987,
   1925078388, 2162078206, 2614888103, 3248222580, 3835390401, 4022224774,
   264347078, 604807628, 770255983, 1249150122, 1555081692, 1996064986,
   2554220882, 2821834349, 2952996808, 3210313671, 3336571891, 3584528711,
   113926993, 338241895, 666307205, 773529912, 1294757372, 1396182291,
   1695183700, 1986661051, 2177026350, 2456956037, 2730485921, 2820302411,
   3259730800, 3345764771, 3516065817, 3600352804, 4094571909, 275423344,
   430227734, 506948616, 659060556, 883997877, 958139571, 1322822218,
   1537002063, 1747873779, 1955562222, 2024104815, 2227730452, 2361852424,
   2428436474, 2756734187, 3204031479, 3329325298]

/-- Big-endian bytes of `n`, `k` bytes wide. -/
def beBytes (k n : Nat) : List Nat :=
  (List.range k).map (fun i => (n >>> (8 * (k - 1 - i))) % 256)

/-- SHA-256 message padding over a byte list. -/
def sha256Pad (msg : List Nat) : List Nat :=
  let padZeros := (119 - msg.length % 64) % 64
  msg ++ [0x80] ++ List.replicate padZeros 0 ++ beBytes 8 (8 * msg.length)

/-- Big-endian 32-bit words from bytes. -/
def toWords : List Nat → List Nat
  | a :: b :: c :: d :: rest => (((a * 256 + b) * 256 + c) * 256 + d) :: toWords rest
  | _ => []

/-- Extend the 16-word block to the 64-word message schedule. -/
def extendW (fuel : Nat) (w : Array Nat) : Array Nat :=
  match fuel with
  | 0 => w
  | f + 1 =>
    let i := w.size
    let nw := w32 (ssig1 (w.getD (i - 2) 0) + w.getD (i - 7) 0 +
                   ssig0 (w.getD (i - 15) 0) + w.getD (i - 16) 0)
    extendW f (w.push nw)

/-- The eight SHA-256 working registers. -/
structure H8 where
  a : Nat
  b : Nat
  c : Nat
  d : Nat
  e : Nat
  f : Nat
  g : Nat
  h : Nat
deriving DecidableEq

/-- SHA-256 initial hash value. -/
def sha256IV : H8 :=
  ⟨1779033703, 3144134277, 1013904242, 2773480762,
   1359893119, 2600822924, 528734635, 1541459225⟩

/-- One SHA-256 compression round. -/
def sha256Round (st : H8) (kw : Nat × Nat) : H8 :=
  let t1 := w32 (st.h + bsig1 st.e + ch32 st.e st.f st.g + kw.1 + kw.2)
  let t2 := w32 (bsig0 st.a + maj32 st.a st.b st.c)
  ⟨w32 (t1 + t2), st.a, st.b, st.c, w32 (st.d + t1), st.e, st.f, st.g⟩

/-- Compress one 64-byte block into the running hash state. -/
def compressBlock (hs : H8) (block : List Nat) : H8 :=
  let w := extendW 48 (Array.mk (toWords block))
  let st := (List.zip sha256K w.toList).foldl sha256Round hs
  ⟨w32 (hs.a + st.a), w32 (hs.b + st.b), w32 (hs.c + st.c), w32 (hs.d + st.d),
   w32 (hs.e + st.e), w32 (hs.f + st.f), w32 (hs.g + st.g), w32 (hs.h + st.h)⟩

/-- Fold the compression function over the given number of 64-byte blocks. -/
def processBlocks (hs : H8) (bytes : List Nat) : Nat → H8
  | 0 => hs
  | b + 1 => processBlocks (compressBlock hs (bytes.take 64)) (bytes.drop 64) b

/-- Lower-case hex digit. -/
def hexDigit (n : Nat) : Char :=
  if n < 10 then Char.ofNat (48 + n) else Char.ofNat (87 + n)

/-- Eight-digit lower-case hex rendering of a 32-bit word. -/
def word32Hex (x : Nat) : String :=
  String.mk ((List.range 8).map (fun i => hexDigit ((x >>> (4 * (7 - i))) % 16)))

/-- SHA-256 hex digest of a byte list. -/
def sha256HexOfBytes (msg : List Nat) : String :=
  let padded := sha256Pad msg
  let hs := processBlocks sha256IV padded (padded.length / 64)
  String.join ([hs.a, hs.b, hs.c, hs.d, hs.e, hs.f, hs.g, hs.h].map word32Hex)

/-- UTF-8 encoding of one Unicode code point. -/
def utf8EncodeChar (c : Nat) : List Nat :=
  if c < 0x80 then [c]
  else if c < 0x800 then [0xc0 ||| (c >>> 6), 0x80 ||| (c &&& 0x3f)]
  else if c < 0x10000 then
    [0xe0 ||| (c >>> 12), 0x80 ||| ((c >>> 6) &&& 0x3f), 0x80 ||| (c &&& 0x3f)]
  else
    [0xf0 ||| (c >>> 18), 0x80 ||| ((c >>> 12) &&& 0x3f),
     0x80 ||| ((c >>> 6) &&& 0x3f), 0x80 ||| (c &&& 0x3f)]

/-- UTF-8 bytes of a string. -/
def utf8Bytes (s : String) : List Nat :=
  s.data.foldr (fun c acc => utf8EncodeChar c.toNat ++ acc) []

/-- SHA-256 hex digest of a string: `hashlib.sha256(s.encode()).hexdigest()`. -/
def sha256Hex (s : String) : String := sha256HexOfBytes (utf8Bytes s)

/-! ## Generic list helpers (ORM row mutation) -/

/-- Mutate the first list element satisfying `p` (SQLAlchemy: fetch the first
matching row with `.first()` and assign to its attributes). -/
def updateFirst {α : Type} (p : α → Bool) (f : α → α) : List α → List α
  | [] => []
  | x :: xs => if p x then f x :: xs else x :: updateFirst p f xs

/-! ## Data model

`User`, `Trade`, `Follow` and `MT5Connection` are transcribed from
`backend/models.py`, keeping the columns that the embedded operations read or
write (audit-only columns such as `created_at` and gamification counters are
omitted).  Numeric columns are `ℚ`; nullable columns are `Option`s;
`Trade.unrealized_profit` and `Trade.swap` carry the ORM default 0. -/

/-- A row of the `users` table. -/
structure User where
  id : Nat
  username : String
  api_key : String
  is_active : Bool
  is_master_trader : Bool
deriving DecidableEq

/-- A row of the `trades` table.  `open_time`/`close_time` are ISO strings. -/
structure Trade where
  id : Nat
  user_id : Nat
  ticket : String
  symbol : String
  trade_type : String
  volume : ℚ
  open_price : ℚ
  current_price : ℚ
  close_price : Option ℚ
  stop_loss : Option ℚ
  take_profit : Option ℚ
  unrealized_profit : ℚ
  realized_profit : Option ℚ
  swap : ℚ
  commission : ℚ
  open_time : String
  close_time : Option String
  status : String
  comment : String
deriving DecidableEq

/-- A row of the `follows` table (the copy settings `copy_percentage` and
`max_risk_per_trade` are never read by the replication path, which looks for a
nonexistent `volume_multiplier` attribute instead, so they are omitted). -/
structure Follow where
  id : Nat
  follower_id : Nat
  following_id : Nat
  is_active : Bool
deriving DecidableEq

/-- Modelled from the spec: the `CopyTrade` ORM class is imported from
`models` by `backend/app.py` but its declaration is missing from the source
tree; its columns are reconstructed from spec §3/§4.3 (replication ledger) and
from every attribute access in `backend/app.py`. -/
structure CopyTrade where
  id : Nat
  master_trade_id : Option Nat
  follower_trade_id : Option Nat
  follow_id : Nat
  master_ticket : String
  follower_ticket : Option String
  symbol : String
  trade_type : String
  original_volume : ℚ
  copied_volume : ℚ
  copy_ratio : ℚ
  copy_hash : Option String
  status : String
  error_message : Option String
  executed_at : Option String
deriving DecidableEq

/-- A row of the `mt5_connections` table. -/
structure MT5Connection where
  user_id : Nat
  login : Option Int
  is_connected : Bool
  account_balance : ℚ
  account_equity : ℚ
  account_margin : ℚ
  account_free_margin : ℚ
  account_margin_level : ℚ
  account_profit : ℚ
  account_currency : String
  last_sync : String
deriving DecidableEq

/-- The relational store. -/
structure Db where
  users : List User
  follows : List Follow
  trades : List Trade
  copy_trades : List CopyTrade
  connections : List MT5Connection
  next_trade_id : Nat
  next_copy_trade_id : Nat
deriving DecidableEq

/-- The session hub's `client_connections` keys: `manager.is_client_connected`
(`backend/websocket_manager.py`) is membership of the user id. -/
def isClientConnected (hub : List Nat) (uid : Nat) : Bool := hub.contains uid

/-- A command frame pushed over a client command channel by
`manager.send_trade_command`; fields that a given command type does not carry
are `none`. -/
structure Command where
  user_id : Nat
  ctype : String
  symbol : String
  trade_type : Option String
  volume : Option ℚ
  sl : Option ℚ
  tp : Option ℚ
  ticket : Option String
  master_trader : String
  master_ticket : Option String
  copy_trade_id : Nat
  copy_hash : Option String
  reason : Option String
deriving DecidableEq

/-! ## Inbound payload values -/

/-- A raw JSON scalar whose Python truthiness and `str(...)` form matter. -/
inductive RawVal where
  | str (s : String)
  | num (n : Int)
  | missing
deriving DecidableEq

/-- Python `str(x)` with `""` for a missing key (the handlers read
`str(pos.get("ticket", ""))`). -/
def RawVal.toStr : RawVal → String
  | .str s => s
  | .num n => toString n
  | .missing => ""

/-- Python truthiness of the raw value. -/
def RawVal.truthy : RawVal → Bool
  | .str s => s != ""
  | .num n => n != 0
  | .missing => false

/-- Position side from the raw `type` field: strings pass through, and the
legacy numeric fallback is `"buy" if raw_type == 0 else "sell"` (a missing
value compares unequal to `0` in Python, hence `"sell"`). -/
def rawTradeType : RawVal → String
  | .str s => s
  | .num n => if n == 0 then "buy" else "sell"
  | .missing => "sell"

/-- One entry of a positions payload, with the numeric defaults of the
handler's `float(pos.get(..., 0))` reads already applied; `open_time` is the
parsed datetime (`none` models a missing or falsy `open_time`). -/
structure Position where
  ticket : RawVal
  symbol : String
  ptype : RawVal
  volume : ℚ
  open_price : ℚ
  current_price : ℚ
  profit : ℚ
  swap : ℚ
  open_time : Option String
  sl : Option ℚ
  tp : Option ℚ
deriving DecidableEq

/-- The envelope of a `positions_update` payload: a legacy bare list, the new
`{positions, market_open}` dict, or data of any other shape. -/
inductive PositionsData where
  | plist (positions : List Position)
  | pdict (positions : List Position) (market_open : Bool)
  | invalid
deriving DecidableEq

/-- The positions carried by the envelope. -/
def PositionsData.positions : PositionsData → List Position
  | .plist ps => ps
  | .pdict ps _ => ps
  | .invalid => []

/-- The market-open flag: legacy lists assume an open market, dicts carry it
(`positions_data.get("market_open", True)`). -/
def PositionsData.marketOpen : PositionsData → Bool
  | .plist _ => true
  | .pdict _ mo => mo
  | .invalid => true

/-- One entry of a `history_update` payload. -/
structure HistoryDeal where
  ticket : RawVal
  symbol : String
  dtype : RawVal
  volume : ℚ
  price : ℚ
  profit : ℚ
  swap : ℚ
  commission : ℚ
  time : Option String
  comment : String
deriving DecidableEq

/-- An `account_update` payload with the handler's numeric defaults applied. -/
structure AccountData where
  balance : ℚ
  equity : ℚ
  margin : ℚ
  free_margin : ℚ
  margin_level : ℚ
  profit : ℚ
  account_currency : String
deriving DecidableEq

/-! ## Copy-trading logic (`app.py` §COPY TRADING LOGIC) -/

/-- `generate_copy_hash`: SHA-256 hex digest of
`f"{master_name}_{master_ticket}_{open_time}"`. -/
def generate_copy_hash (master_name master_ticket open_time : String) : String :=
  sha256Hex (master_name ++ "_" ++ master_ticket ++ "_" ++ open_time)

/-- The master-trade fields that `handle_positions_update` packs into
`trade_data` before calling `process_new_master_trade`. -/
structure MasterTradeData where
  ticket : String
  symbol : String
  ttype : String
  volume : ℚ
  open_price : ℚ
  sl : Option ℚ
  tp : Option ℚ
deriving DecidableEq

/-- The copy-hash backfill used by the close paths: reuse the stored hash, and
when it is missing generate one from the linked master trade's open time
(falling back to `now` when the master trade or its open time is absent). -/
def ensureCopyHash (master_name : String) (now : String) (db : Db) (ct : CopyTrade) : String :=
  match ct.copy_hash with
  | some h => h
  | none =>
    let open_time :=
      match (ct.master_trade_id.bind (fun i => db.trades.find? (fun t => t.id == i))).map
          Trade.open_time with
      | some t => if t != "" then t else now
      | none => now
    generate_copy_hash master_name ct.master_ticket open_time

/-- `create_copy_trade`: look up the open master trade; compute the copied
volume (the `volume_multiplier` attribute does not exist on `Follow`, so the
`hasattr` guard fails and the master volume is copied unscaled); return with no
ledger write when the follower's client is not connected; otherwise record a
pending `CopyTrade` carrying the copy hash and dispatch `execute_trade`.  The
final branch mirrors the source's failed-send handling
(`send_trade_command` returns false exactly when no channel is attached). -/
def create_copy_trade (hub : List Nat) (now : String) (follow : Follow)
    (d : MasterTradeData) (db : Db) : Db × List Command :=
  match db.trades.find? (fun t =>
      t.ticket == d.ticket && t.user_id == follow.following_id && t.status == "open") with
  | none => (db, [])
  | some master_trade =>
    let original_volume := d.volume
    let copied_volume := original_volume
    let copy_ratio := if 0 < original_volume then copied_volume / original_volume else 1
    if !(isClientConnected hub follow.follower_id) then (db, [])
    else
      let master_trader_name :=
        (((db.users.find? (fun u => u.id == follow.following_id)).map User.username).getD "Unknown")
      let open_time := if master_trade.open_time != "" then master_trade.open_time else now
      let copy_hash := generate_copy_hash master_trader_name d.ticket open_time
      let ct : CopyTrade :=
        { id := db.next_copy_trade_id
          master_trade_id := some master_trade.id
          follower_trade_id := none
          follow_id := follow.id
          master_ticket := d.ticket
          follower_ticket := none
          symbol := d.symbol
          trade_type := d.ttype
          original_volume := original_volume
          copied_volume := copied_volume
          copy_ratio := copy_ratio
          copy_hash := some copy_hash
          status := "pending"
          error_message := none
          executed_at := none }
      let db1 := { db with copy_trades := db.copy_trades ++ [ct],
                           next_copy_trade_id := db.next_copy_trade_id + 1 }
      let cmd : Command :=
        { user_id := follow.follower_id
          ctype := "execute_trade"
          symbol := d.symbol
          trade_type := some d.ttype
          volume := some copied_volume
          sl := d.sl
          tp := d.tp
          ticket := none
          master_trader := master_trader_name
          master_ticket := some d.ticket
          copy_trade_id := ct.id
          copy_hash := some copy_hash
          reason := none }
      if isClientConnected hub follow.follower_id then (db1, [cmd])
      else
        let failed := updateFirst (fun c => c.id == ct.id)
          (fun c => { c with status := "failed",
                             error_message := some "Failed to send command to client" })
          db1.copy_trades
        ({ db1 with copy_trades := failed }, [])

/-- One follow edge of the fan-out of `process_new_master_trade`. -/
def copyFanStep (hub : List Nat) (now : String) (d : MasterTradeData)
    (acc : Db × List Command) (f : Follow) : Db × List Command :=
  let r := create_copy_trade hub now f d acc.1
  (r.1, acc.2 ++ r.2)

/-- `process_new_master_trade`: fan a new master trade out to every active
follow edge of the master. -/
def process_new_master_trade (hub : List Nat) (now : String) (user : User)
    (d : MasterTradeData) (db : Db) : Db × List Command :=
  if !user.is_master_trader then (db, [])
  else
    (db.follows.filter (fun f => f.following_id == user.id && f.is_active)).foldl
      (copyFanStep hub now d) (db, [])

/-- `close_specific_follower_trades`: for each follow edge of the master, send
`close_trade` for every executed ledger record whose master ticket was just
closed, provided the follower's client is connected; the ledger rows are not
transitioned (closure waits for the client's confirmation), only a missing
copy hash is backfilled.  `closeFanStep` emits one `close_trade` command for
one ledger record; `closeFollowStep` handles one follow edge. -/
def closeFanStep (now : String) (master : User) (follower_id : Nat)
    (acc2 : Db × List Command) (ct : CopyTrade) : Db × List Command :=
  let h := ensureCopyHash master.username now acc2.1 ct
  let cts2 := updateFirst (fun c => c.id == ct.id)
    (fun c => { c with copy_hash := some h }) acc2.1.copy_trades
  let db2 := { acc2.1 with copy_trades := cts2 }
  let cmd : Command :=
    { user_id := follower_id
      ctype := "close_trade"
      symbol := ct.symbol
      trade_type := none
      volume := none
      sl := none
      tp := none
      ticket := ct.follower_ticket
      master_trader := master.username
      master_ticket := some ct.master_ticket
      copy_trade_id := ct.id
      copy_hash := some h
      reason := some "master_closed_specific" }
  (db2, acc2.2 ++ [cmd])

def closeFollowStep (hub : List Nat) (now : String) (master : User)
    (closed_tickets : List String) (acc : Db × List Command) (f : Follow) :
    Db × List Command :=
  match acc.1.users.find? (fun u => u.id == f.follower_id) with
  | none => acc
  | some follower =>
    let fcts := acc.1.copy_trades.filter (fun ct =>
      ct.follow_id == f.id && ct.status == "executed" &&
      closed_tickets.contains ct.master_ticket)
    if !fcts.isEmpty && isClientConnected hub follower.id then
      fcts.foldl (closeFanStep now master follower.id) acc
    else acc

def close_specific_follower_trades (hub : List Nat) (now : String) (master : User)
    (closed_tickets : List String) (db : Db) : Db × List Command :=
  if !master.is_master_trader then (db, [])
  else
    (db.follows.filter (fun f => f.following_id == master.id)).foldl
      (closeFollowStep hub now master closed_tickets) (db, [])

/-- `process_master_positions_cleared`: on an empty snapshot with the market
open, select the executed ledger records of this master whose follower trade
is still open and, for each whose follower client is connected, send a
`close_trade` carrying the (backfilled) copy hash and the follower ticket when
it is still among the follower's open tickets.  Note that the master's own
trades and connectivity are not consulted.  `pmpcStep` handles one selected
ledger record. -/
def pmpcStep (hub : List Nat) (now : String) (user : User)
    (acc : Db × List Command) (ct : CopyTrade) : Db × List Command :=
  match acc.1.follows.find? (fun f => f.id == ct.follow_id) with
  | none => acc
  | some follow =>
    if isClientConnected hub follow.follower_id then
      let h := ensureCopyHash user.username now acc.1 ct
      let cts2 := updateFirst (fun c => c.id == ct.id)
        (fun c => { c with copy_hash := some h }) acc.1.copy_trades
      let db2 := { acc.1 with copy_trades := cts2 }
      let follower_open_tickets := (db2.trades.filter (fun t =>
          t.user_id == follow.follower_id && t.status == "open")).map Trade.ticket
      let ticket_to_send :=
        match ct.follower_ticket with
        | some ft => if follower_open_tickets.contains ft then some ft else none
        | none => none
      let cmd : Command :=
        { user_id := follow.follower_id
          ctype := "close_trade"
          symbol := ct.symbol
          trade_type := none
          volume := none
          sl := none
          tp := none
          ticket := ticket_to_send
          master_trader := user.username
          master_ticket := none
          copy_trade_id := ct.id
          copy_hash := some h
          reason := some "master_cleared_all" }
      (db2, acc.2 ++ [cmd])
    else acc

def pmpcSelect (user : User) (db : Db) : List CopyTrade :=
  db.copy_trades.filter (fun ct =>
    ((db.follows.find? (fun f => f.id == ct.follow_id)).map Follow.following_id
        == some user.id) &&
    ct.status == "executed" &&
    (((ct.follower_trade_id.bind (fun i => db.trades.find? (fun t => t.id == i))).map
        Trade.status) == some "open"))

def process_master_positions_cleared (hub : List Nat) (now : String) (user : User)
    (db : Db) : Db × List Command :=
  if !user.is_master_trader then (db, [])
  else (pmpcSelect user db).foldl (pmpcStep hub now user) (db, [])

/-! ## Positions ingestion (`handle_positions_update`) -/

/-- The update applied to an existing trade row for a snapshot position: force
status open, refresh prices and profits, clear the close fields.  The source
assigns `realized_profit = 0 if status != "closed" else ...` after having just
set `status = "open"`, so the guard always takes the `0` branch. -/
def applyOpenUpdate (pos : Position) (t : Trade) : Trade :=
  { t with status := "open"
           current_price := pos.current_price
           unrealized_profit := pos.profit
           realized_profit := some 0
           swap := pos.swap
           close_time := none
           close_price := none }

/-- The trade row created for a snapshot position that has no row yet. -/
def newOpenTrade (uid tid : Nat) (now ticket trade_type : String) (pos : Position) : Trade :=
  { id := tid
    user_id := uid
    ticket := ticket
    symbol := pos.symbol
    trade_type := trade_type
    volume := pos.volume
    open_price := pos.open_price
    current_price := pos.current_price
    close_price := none
    stop_loss := none
    take_profit := none
    unrealized_profit := pos.profit
    realized_profit := none
    swap := pos.swap
    commission := 0
    open_time := pos.open_time.getD now
    close_time := none
    status := "open"
    comment := "" }

/-- The ticket-based promotion of a pending ledger record performed inside the
position loop: the first `CopyTrade` of this follower whose `follower_ticket`
matches is linked to the trade row, and a pending one becomes executed. -/
def linkPendingCopy (uid : Nat) (ticket : String) (trade_id : Nat) (now : String)
    (db : Db) : Db :=
  match db.copy_trades.find? (fun ct =>
      ct.follower_ticket == some ticket &&
      ((db.follows.find? (fun f => f.id == ct.follow_id)).map Follow.follower_id
        == some uid)) with
  | some ct =>
    if ct.follower_trade_id == none then
      let cts1 := updateFirst (fun c => c.id == ct.id)
        (fun c =>
          let c1 := { c with follower_trade_id := some trade_id }
          if c1.status == "pending" then
            { c1 with status := "executed", executed_at := some now }
          else c1)
        db.copy_trades
      { db with copy_trades := cts1 }
    else db
  | none => db

/-- The row predicate addressing a trade by `(owner, ticket)`. -/
def kmatch (uid : Nat) (ticket : String) (t : Trade) : Bool :=
  t.user_id == uid && t.ticket == ticket

/-- The per-position body of the ingestion loop: skip empty tickets, upsert
the trade row, promote a matching pending ledger record, and fan out the copy
of a newly created master trade. -/
def processPosition (hub : List Nat) (now : String) (user : User)
    (acc : Db × List Command) (pos : Position) : Db × List Command :=
  let db := acc.1
  let ticket := pos.ticket.toStr
  if ticket == "" then acc
  else
    match db.trades.find? (kmatch user.id ticket) with
    | some existing =>
      let trades1 := updateFirst (kmatch user.id ticket) (applyOpenUpdate pos) db.trades
      let db1 := { db with trades := trades1 }
      (linkPendingCopy user.id ticket existing.id now db1, acc.2)
    | none =>
      let nt := newOpenTrade user.id db.next_trade_id now ticket (rawTradeType pos.ptype) pos
      let db1 := { db with trades := db.trades ++ [nt],
                           next_trade_id := db.next_trade_id + 1 }
      let db2 := linkPendingCopy user.id ticket nt.id now db1
      if user.is_master_trader then
        let d : MasterTradeData :=
          { ticket := ticket, symbol := pos.symbol, ttype := rawTradeType pos.ptype,
            volume := pos.volume, open_price := pos.open_price, sl := pos.sl, tp := pos.tp }
        let r := process_new_master_trade hub now user d db2
        (r.1, acc.2 ++ r.2)
      else (db2, acc.2)

/-- The closure applied to a missing master trade: status closed, close time
stamped, close price `current_price or open_price` (Python `or`, so the open
price when the current price is 0), and the unrealized profit moved to
realized only when it is truthy (nonzero). -/
def closeTradeRow (now : String) (t : Trade) : Trade :=
  let t1 := { t with status := "closed"
                     close_time := some now
                     close_price :=
                       some (if t.current_price == 0 then t.open_price else t.current_price) }
  if t1.unrealized_profit != 0 then
    { t1 with realized_profit := some t1.unrealized_profit, unrealized_profit := 0 }
  else t1

/-- The snapshot ticket set used by closure detection:
`{str(pos.get("ticket", "")) for pos in positions if pos.get("ticket")}`
(note the raw-truthiness guard, unlike the loop's `str(...)` guard). -/
def snapshotTickets (positions : List Position) : List String :=
  positions.filterMap (fun p => if p.ticket.truthy then some p.ticket.toStr else none)

/-- Closure detection at the end of a non-empty snapshot: only for a master,
only with the market open, and only while the master's own client is
connected; every open trade of the owner whose ticket is missing from the
snapshot set is closed, and the per-ticket follower close fan-out runs.
`closeCond` picks the rows to close and `closeRowIf` is the pointwise effect
of the closure pass. -/
def closeCond (uid : Nat) (current : List String) (t : Trade) : Bool :=
  t.user_id == uid && t.status == "open" && !(current.contains t.ticket)

def closeRowIf (now : String) (uid : Nat) (current : List String) (t : Trade) : Trade :=
  if closeCond uid current t then closeTradeRow now t else t

def detectClosures (hub : List Nat) (now : String) (user : User)
    (positions : List Position) (market_open : Bool) (st : Db × List Command) :
    Db × List Command :=
  if user.is_master_trader && market_open then
    if isClientConnected hub user.id then
      let db := st.1
      let current := snapshotTickets positions
      let missing := db.trades.filter (closeCond user.id current)
      if missing.isEmpty then st
      else
        let db1 := { db with trades := db.trades.map (closeRowIf now user.id current) }
        let r := close_specific_follower_trades hub now user (missing.map Trade.ticket) db1
        (r.1, st.2 ++ r.2)
    else st
  else st

/-- `handle_positions_update`: parse the envelope (returning unchanged on an
invalid shape), run the mass-clear path on an empty snapshot (market open and
owner a master — the master's connectivity is not consulted there), otherwise
upsert every position and then run closure detection. -/
def handle_positions_update (hub : List Nat) (now : String) (user : User)
    (positions_data : PositionsData) (db : Db) : Db × List Command :=
  match positions_data with
  | .invalid => (db, [])
  | pd =>
    if pd.positions.isEmpty then
      if pd.marketOpen && user.is_master_trader then
        process_master_positions_cleared hub now user db
      else (db, [])
    else
      let st := pd.positions.foldl (processPosition hub now user) (db, [])
      detectClosures hub now user pd.positions pd.marketOpen st

/-! ## Account, connection and history ingestion -/

/-- The field writes of `handle_account_update` on the connection row: the
provided margin level is stored as given whenever `margin > 0`, and the
999999 sentinel is stored when no margin is used. -/
def applyAccountUpdate (d : AccountData) (now : String) (c : MT5Connection) : MT5Connection :=
  { c with
    account_balance := d.balance
    account_equity := d.equity
    account_margin := d.margin
    account_free_margin := d.free_margin
    account_margin_level := if 0 < d.margin then d.margin_level else 999999
    account_profit := d.profit
    account_currency := d.account_currency
    last_sync := now }

/-- `handle_account_update`: only an existing `MT5Connection` row is updated. -/
def handle_account_update (d : AccountData) (now : String) (uid : Nat) (db : Db) : Db :=
  match db.connections.find? (fun c => c.user_id == uid) with
  | none => db
  | some _ =>
    let conns1 := updateFirst (fun c => c.user_id == uid) (applyAccountUpdate d now)
      db.connections
    { db with connections := conns1 }

/-- The margin-level view computed by `/api/account/stats` (before the final
two-decimal rounding of the response): falsy stored values read as 0, and a
stored level that is non-physical (above 100000 or negative) is replaced by
`equity / margin * 100` whenever margin is positive. -/
def stats_margin_level (db : Db) (uid : Nat) : ℚ :=
  let conn := db.connections.find? (fun c => c.user_id == uid)
  let margin := (conn.map MT5Connection.account_margin).getD 0
  let equity := (conn.map MT5Connection.account_equity).getD 0
  let margin_level := (conn.map MT5Connection.account_margin_level).getD 0
  if 0 < margin then
    if 100000 < margin_level ∨ margin_level < 0 then equity / margin * 100
    else margin_level
  else 999999

/-- `handle_connection_status`: upsert the per-user `MT5Connection` row's
liveness fields. -/
def handle_connection_status (connected : Bool) (account_number : Option Int)
    (now : String) (uid : Nat) (db : Db) : Db :=
  match db.connections.find? (fun c => c.user_id == uid) with
  | none =>
    { db with connections := db.connections ++
        [{ user_id := uid, login := account_number, is_connected := connected,
           account_balance := 0, account_equity := 0, account_margin := 0,
           account_free_margin := 0, account_margin_level := 0, account_profit := 0,
           account_currency := "USD", last_sync := now }] }
  | some _ =>
    let conns1 := updateFirst (fun c => c.user_id == uid)
      (fun c => { c with is_connected := connected, last_sync := now }) db.connections
    { db with connections := conns1 }

/-- The closed trade row inserted for a new history deal. -/
def historyTrade (uid tid : Nat) (now : String) (deal : HistoryDeal) : Trade :=
  { id := tid
    user_id := uid
    ticket := deal.ticket.toStr
    symbol := deal.symbol
    trade_type := (match deal.dtype with | .num 0 => "buy" | _ => "sell")
    volume := deal.volume
    open_price := deal.price
    current_price := deal.price
    close_price := some deal.price
    stop_loss := none
    take_profit := none
    unrealized_profit := 0
    realized_profit := some deal.profit
    swap := deal.swap
    commission := deal.commission
    open_time := deal.time.getD now
    close_time := some (deal.time.getD now)
    status := "closed"
    comment := deal.comment }

/-- `handle_history_update`: append-only — insert a closed trade for every
deal whose ticket is non-empty and not already present for this user (the
existing-ticket set is computed once, before the loop). -/
def handle_history_update (now : String) (user : User) (history : List HistoryDeal)
    (db : Db) : Db :=
  let existing_tickets := (db.trades.filter (fun t => t.user_id == user.id)).map Trade.ticket
  history.foldl (fun acc deal =>
    let ticket := deal.ticket.toStr
    if ticket == "" then acc
    else if existing_tickets.contains ticket then acc
    else { acc with trades := acc.trades ++ [historyTrade user.id acc.next_trade_id now deal],
                     next_trade_id := acc.next_trade_id + 1 }) db

/-! ## Authentication and the `/api/ea/data` endpoint -/

/-- Remove a key from the process-local `api_key -> user_id` cache. -/
def cacheDelete (k : String) (c : List (String × Nat)) : List (String × Nat) :=
  c.filter (fun e => e.1 != k)

/-- Store a binding in the cache (dict assignment). -/
def cacheInsert (k : String) (v : Nat) (c : List (String × Nat)) : List (String × Nat) :=
  cacheDelete k c ++ [(k, v)]

/-- Cache lookup. -/
def cacheGet (k : String) (c : List (String × Nat)) : Option Nat :=
  (c.find? (fun e => e.1 == k)).map Prod.snd

/-- Python's `str.startswith`, computed on the character lists. -/
def strStartsWith (s tag : String) : Bool :=
  decide (s.data.take tag.data.length = tag.data)

/-- `get_user_by_api_key`: reject empty keys and keys without the `ca_`
format tag; on a cache hit re-verify against the store (dropping a stale
entry); on a miss query the store, require the user active, and populate the
cache.  Returns the authenticated user (if any) and the updated cache. -/
def get_user_by_api_key (api_key : String) (users : List User)
    (cache : List (String × Nat)) : Option User × List (String × Nat) :=
  if api_key == "" then (none, cache)
  else if !(strStartsWith api_key "ca_") then (none, cache)
  else
    let step1 : Option User × List (String × Nat) :=
      match cacheGet api_key cache with
      | some uid =>
        match users.find? (fun u => u.id == uid && u.api_key == api_key) with
        | some u =>
          if u.api_key == api_key then (some u, cache)
          else (none, cacheDelete api_key cache)
        | none => (none, cache)
      | none => (none, cache)
    match step1 with
    | (some u, c) => (some u, c)
    | (none, c) =>
      match users.find? (fun u => u.api_key == api_key) with
      | some u =>
        if u.api_key == api_key && u.is_active then (some u, cacheInsert api_key u.id c)
        else (none, c)
      | none => (none, c)

/-- `clear_all_api_key_cache`: drop every cached binding. -/
def clear_all_api_key_cache (_c : List (String × Nat)) : List (String × Nat) := []

/-- `regenerate_api_key` for an authenticated user: evict the old key from the
cache, store the freshly generated key, cache it, and finally clear the whole
cache to force re-validation everywhere. -/
def regenerate_api_key (uid : Nat) (new_api_key : String) (users : List User)
    (cache : List (String × Nat)) : List User × List (String × Nat) :=
  match users.find? (fun u => u.id == uid) with
  | none => (users, cache)
  | some u =>
    let c1 := if u.api_key != "" then cacheDelete u.api_key cache else cache
    let users1 := updateFirst (fun v => v.id == uid)
      (fun v => { v with api_key := new_api_key }) users
    let c2 := cacheInsert new_api_key uid c1
    (users1, clear_all_api_key_cache c2)

/-- An inbound `/api/ea/data` request, with the payload pre-parsed into the
view each handler would read from it. -/
structure EAReq where
  api_key : String
  rtype : String
  user_id : Option Nat
  username : Option String
  connected : Bool
  account_number : Option Int
  account : AccountData
  positions : PositionsData
  history : List HistoryDeal
deriving DecidableEq

/-- The HTTP outcome of `/api/ea/data`. -/
inductive EAResp where
  | success
  | failure (code : Nat) (detail : String)
deriving DecidableEq

/-- Server state threaded through the endpoint. -/
structure Server where
  db : Db
  hub : List Nat
  api_key_cache : List (String × Nat)
deriving DecidableEq

/-- The type-dispatch chain of `receive_client_data`: five `elif` branches and
no final `else`, so an unknown type runs no handler and falls through. -/
def dispatchEA (now : String) (user : User) (req : EAReq) (sv : Server) :
    Server × List Command :=
  if req.rtype == "connection_status" then
    ({ sv with db := handle_connection_status req.connected req.account_number now user.id sv.db }, [])
  else if req.rtype == "account_update" then
    ({ sv with db := handle_account_update req.account now user.id sv.db }, [])
  else if req.rtype == "positions_update" then
    ({ sv with db := (handle_positions_update sv.hub now user req.positions sv.db).1 },
     (handle_positions_update sv.hub now user req.positions sv.db).2)
  else if req.rtype == "orders_update" then (sv, [])
  else if req.rtype == "history_update" then
    ({ sv with db := handle_history_update now user req.history sv.db }, [])
  else (sv, [])

/-- `receive_client_data` (`POST /api/ea/data`): 400 without an API key, 401
on failed key authentication, 403 on a truthy `user_id` or `username` that
contradicts the key's owner, then the type dispatch and the success response.
(IP binding and the `last_seen` touch are logged side channels, not modelled.) -/
def receive_client_data (now : String) (req : EAReq) (sv : Server) :
    Server × EAResp × List Command :=
  if req.api_key == "" then (sv, .failure 400 "API key required", [])
  else
    match get_user_by_api_key req.api_key sv.db.users sv.api_key_cache with
    | (none, c) => ({ sv with api_key_cache := c }, .failure 401 "Invalid API key", [])
    | (some user, c) =>
      if (match req.user_id with
          | some uid => uid != 0 && uid != user.id
          | none => false) then
        ({ sv with api_key_cache := c },
         .failure 403 "Security violation: User ID does not match API key owner", [])
      else if (match req.username with
          | some un => un != "" && un != user.username
          | none => false) then
        ({ sv with api_key_cache := c },
         .failure 403 "Security violation: Username does not match account", [])
      else
        ((dispatchEA now user req { sv with api_key_cache := c }).1, .success,
         (dispatchEA now user req { sv with api_key_cache := c }).2)

/-- The message types `receive_client_data` dispatches on. -/
def knownEATypes : List String :=
  ["connection_status", "account_update", "positions_update", "orders_update", "history_update"]

/-! ## Generic lemmas about folds and row mutation -/

/-- A fold preserves any invariant its step preserves. -/
theorem foldlInvariant {α β : Type} (step : β → α → β) (P : β → Prop)
    (h : ∀ b a, P b → P (step b a)) : ∀ (l : List α) (b : β), P b → P (l.foldl step b)
  | [], _, hb => hb
  | a :: l, b, hb => foldlInvariant step P h l (step b a) (h b a hb)

/-- Two folds agree when their steps agree on states satisfying an invariant
preserved by the first step and on the members of the list. -/
theorem foldlCongrInv {α β : Type} (f g : β → α → β) (P : β → Prop) (Q : α → Prop)
    (hstep : ∀ b a, P b → Q a → f b a = g b a)
    (hpres : ∀ b a, P b → Q a → P (f b a)) :
    ∀ (l : List α) (b : β), P b → (∀ a ∈ l, Q a) → l.foldl f b = l.foldl g b
  | [], _, _, _ => rfl
  | a :: l, b, hb, hq => by
    have h1 : f b a = g b a := hstep b a hb (hq a (by simp))
    rw [List.foldl_cons, List.foldl_cons, ← h1]
    exact foldlCongrInv f g P Q hstep hpres l (f b a) (hpres b a hb (hq a (by simp)))
      (fun x hx => hq x (by simp [hx]))

/-- Membership after `updateFirst`: either an untouched original element or
the image of a matched original element. -/
theorem mem_updateFirst {α : Type} (p : α → Bool) (f : α → α) :
    ∀ (l : List α) (x : α), x ∈ updateFirst p f l →
      x ∈ l ∨ ∃ y, y ∈ l ∧ p y = true ∧ x = f y
  | [], x, hx => absurd hx (by simp [updateFirst])
  | a :: l, x, hx => by
    cases hp : p a with
    | true =>
      simp only [updateFirst, hp, if_true] at hx
      rcases List.mem_cons.mp hx with hxa | hxl
      · exact Or.inr ⟨a, List.mem_cons_self a l, hp, hxa⟩
      · exact Or.inl (List.mem_cons_of_mem a hxl)
    | false =>
      simp only [updateFirst, hp] at hx
      rw [if_neg (by decide)] at hx
      rcases List.mem_cons.mp hx with hxa | hxl
      · exact Or.inl (by rw [hxa]; exact List.mem_cons_self a l)
      · rcases mem_updateFirst p f l x hxl with h1 | ⟨y, hy, hpy, hxy⟩
        · exact Or.inl (List.mem_cons_of_mem a h1)
        · exact Or.inr ⟨y, List.mem_cons_of_mem a hy, hpy, hxy⟩

/-- `updateFirst` maps the first match under `find?` when the update preserves
the predicate. -/
theorem find?_updateFirst {α : Type} (p : α → Bool) (f : α → α)
    (hf : ∀ y, p (f y) = p y) :
    ∀ l : List α, List.find? p (updateFirst p f l) = (List.find? p l).map f
  | [] => rfl
  | a :: l => by
    by_cases ha : p a = true
    · simp [updateFirst, ha, List.find?_cons, hf a]
    · have ha' : p a = false := by simp [Bool.not_eq_true] at ha; exact ha
      simp [updateFirst, ha', List.find?_cons, find?_updateFirst p f hf l]

/-- `find?` for one predicate is unchanged by an `updateFirst` for a disjoint
predicate that is preserved by the update. -/
theorem find?_updateFirst_disjoint {α : Type} (p q : α → Bool) (f : α → α)
    (hpq : ∀ y, q y = true → p y = false) (hf : ∀ y, p (f y) = p y) :
    ∀ l : List α, List.find? p (updateFirst q f l) = List.find? p l
  | [] => rfl
  | a :: l => by
    by_cases ha : q a = true
    · have hpa : p a = false := hpq a ha
      have hpfa : p (f a) = false := by rw [hf]; exact hpa
      simp [updateFirst, ha, List.find?_cons, hpa, hpfa]
    · have ha' : q a = false := by simp [Bool.not_eq_true] at ha; exact ha
      by_cases hpa : p a = true
      · simp [updateFirst, ha', List.find?_cons, hpa]
      · have hpa' : p a = false := by simp [Bool.not_eq_true] at hpa; exact hpa
        simp [updateFirst, ha', List.find?_cons, hpa',
          find?_updateFirst_disjoint p q f hpq hf l]

/-- `updateFirst` leaves a list unmatched by the predicate unchanged. -/
theorem updateFirst_of_forall_not {α : Type} (p : α → Bool) (f : α → α) :
    ∀ l : List α, (∀ x ∈ l, p x = false) → updateFirst p f l = l
  | [], _ => rfl
  | a :: l, h => by
    have ha := h a (by simp)
    simp [updateFirst, ha, updateFirst_of_forall_not p f l (fun x hx => h x (by simp [hx]))]

/-- Membership in the hub survives removing a different user id. -/
theorem contains_filter_ne (uid v : Nat) (h : ¬(v = uid)) :
    ∀ hub : List Nat, (hub.filter (fun x => x != uid)).contains v = hub.contains v
  | [] => rfl
  | a :: hub => by
    have ih := contains_filter_ne uid v h hub
    by_cases ha : a = uid
    · have hv : (v == a) = false := by rw [ha, beq_eq_false_iff_ne]; exact h
      have hp : (a != uid) = false := by rw [ha]; simp
      rw [List.filter_cons, hp, if_neg (by decide), ih, List.contains_cons, hv, Bool.false_or]
    · have hp : (a != uid) = true := by simp [ha]
      rw [List.filter_cons, hp, if_pos rfl, List.contains_cons, List.contains_cons, ih]

/-! ## Ledger-only mutation

The replication fan-out functions touch only the `copy_trades` table (and its
id counter); every other component of the store is preserved. -/

/-- `db'` differs from `db` at most in the copy-trade ledger. -/
def ledgerOnly (db db' : Db) : Prop :=
  db'.users = db.users ∧ db'.follows = db.follows ∧ db'.trades = db.trades ∧
    db'.connections = db.connections ∧ db'.next_trade_id = db.next_trade_id

theorem ledgerOnly_refl (db : Db) : ledgerOnly db db := ⟨rfl, rfl, rfl, rfl, rfl⟩

theorem ledgerOnly_trans {a b c : Db} (h1 : ledgerOnly a b) (h2 : ledgerOnly b c) :
    ledgerOnly a c :=
  ⟨h2.1.trans h1.1, h2.2.1.trans h1.2.1, h2.2.2.1.trans h1.2.2.1,
   h2.2.2.2.1.trans h1.2.2.2.1, h2.2.2.2.2.trans h1.2.2.2.2⟩

theorem create_copy_trade_ledgerOnly (hub : List Nat) (now : String) (follow : Follow)
    (d : MasterTradeData) (db : Db) :
    ledgerOnly db (create_copy_trade hub now follow d db).1 := by
  unfold create_copy_trade
  split
  · exact ledgerOnly_refl db
  · dsimp only
    split
    · exact ledgerOnly_refl db
    · split
      · exact ⟨rfl, rfl, rfl, rfl, rfl⟩
      · exact ⟨rfl, rfl, rfl, rfl, rfl⟩

theorem process_new_master_trade_ledgerOnly (hub : List Nat) (now : String) (user : User)
    (d : MasterTradeData) (db : Db) :
    ledgerOnly db (process_new_master_trade hub now user d db).1 := by
  unfold process_new_master_trade
  split
  · exact ledgerOnly_refl db
  · exact foldlInvariant (copyFanStep hub now d) (fun acc => ledgerOnly db acc.1)
      (fun b a hb => ledgerOnly_trans hb (create_copy_trade_ledgerOnly hub now a d b.1))
      _ (db, []) (ledgerOnly_refl db)

theorem closeFanStep_ledgerOnly (now : String) (master : User) (fid : Nat)
    (acc : Db × List Command) (ct : CopyTrade) :
    ledgerOnly acc.1 (closeFanStep now master fid acc ct).1 :=
  ⟨rfl, rfl, rfl, rfl, rfl⟩

theorem closeFollowStep_ledgerOnly (hub : List Nat) (now : String) (master : User)
    (tks : List String) (acc : Db × List Command) (f : Follow) :
    ledgerOnly acc.1 (closeFollowStep hub now master tks acc f).1 := by
  unfold closeFollowStep
  split
  · exact ledgerOnly_refl acc.1
  · dsimp only
    split
    · exact foldlInvariant (closeFanStep now master _) (fun b => ledgerOnly acc.1 b.1)
        (fun b a hb => ledgerOnly_trans hb (closeFanStep_ledgerOnly now master _ b a))
        _ acc (ledgerOnly_refl acc.1)
    · exact ledgerOnly_refl acc.1

theorem close_specific_follower_trades_ledgerOnly (hub : List Nat) (now : String)
    (master : User) (tks : List String) (db : Db) :
    ledgerOnly db (close_specific_follower_trades hub now master tks db).1 := by
  unfold close_specific_follower_trades
  split
  · exact ledgerOnly_refl db
  · exact foldlInvariant (closeFollowStep hub now master tks) (fun acc => ledgerOnly db acc.1)
      (fun b a hb => ledgerOnly_trans hb (closeFollowStep_ledgerOnly hub now master tks b a))
      _ (db, []) (ledgerOnly_refl db)

theorem pmpcStep_ledgerOnly (hub : List Nat) (now : String) (user : User)
    (acc : Db × List Command) (ct : CopyTrade) :
    ledgerOnly acc.1 (pmpcStep hub now user acc ct).1 := by
  unfold pmpcStep
  split
  · exact ledgerOnly_refl acc.1
  · split
    · exact ⟨rfl, rfl, rfl, rfl, rfl⟩
    · exact ledgerOnly_refl acc.1

theorem process_master_positions_cleared_ledgerOnly (hub : List Nat) (now : String)
    (user : User) (db : Db) :
    ledgerOnly db (process_master_positions_cleared hub now user db).1 := by
  unfold process_master_positions_cleared
  split
  · exact ledgerOnly_refl db
  · exact foldlInvariant (pmpcStep hub now user) (fun acc => ledgerOnly db acc.1)
      (fun b a hb => ledgerOnly_trans hb (pmpcStep_ledgerOnly hub now user b a))
      _ (db, []) (ledgerOnly_refl db)

theorem linkPendingCopy_ledgerOnly (uid : Nat) (ticket : String) (tid : Nat) (now : String)
    (db : Db) : ledgerOnly db (linkPendingCopy uid ticket tid now db) := by
  unfold linkPendingCopy
  split
  · split
    · exact ⟨rfl, rfl, rfl, rfl, rfl⟩
    · exact ledgerOnly_refl db
  · exact ledgerOnly_refl db

/-! ## Claim 1 — the empty-snapshot mass-clear path -/

/-- On an empty market-open snapshot for a master the handler is exactly the
mass-clear routine. -/
theorem handle_empty_eq_pmpc (hub : List Nat) (now : String) (user : User) (db : Db)
    (hmaster : user.is_master_trader = true) :
    handle_positions_update hub now user (.pdict [] true) db
      = process_master_positions_cleared hub now user db := by
  show (if ((PositionsData.pdict [] true).marketOpen && user.is_master_trader) = true
        then process_master_positions_cleared hub now user db else (db, [])) = _
  rw [hmaster]
  exact if_pos (by decide)

/-- One mass-clear step does not depend on the master's own hub membership,
given that the record's follow edge is not a self-follow. -/
theorem pmpcStep_hub_filter (hub : List Nat) (now : String) (user : User) (db : Db)
    (hnoself : ∀ f ∈ db.follows, f.following_id = user.id → ¬(f.follower_id = user.id))
    (acc : Db × List Command) (ct : CopyTrade)
    (hacc : acc.1.follows = db.follows)
    (hct : ((db.follows.find? (fun f => f.id == ct.follow_id)).map Follow.following_id
        == some user.id) = true) :
    pmpcStep hub now user acc ct
      = pmpcStep (hub.filter (fun x => x != user.id)) now user acc ct := by
  unfold pmpcStep
  rw [hacc]
  cases hfind : db.follows.find? (fun f => f.id == ct.follow_id) with
  | none => rfl
  | some f =>
    rw [hfind] at hct
    have hfol : f.following_id = user.id := by
      simpa using hct
    have hne : ¬(f.follower_id = user.id) :=
      hnoself f (List.mem_of_find?_eq_some hfind) hfol
    have hcc : ((hub.filter (fun x => x != user.id)).contains f.follower_id)
        = hub.contains f.follower_id := contains_filter_ne user.id f.follower_id hne hub
    show (if isClientConnected hub f.follower_id = true then _ else acc)
      = (if isClientConnected (hub.filter (fun x => x != user.id)) f.follower_id = true
         then _ else acc)
    simp only [isClientConnected]
    rw [hcc]

/-- The mass-clear routine is unchanged when the master is removed from the
hub: its connectivity checks concern followers only. -/
theorem pmpc_hub_filter (hub : List Nat) (now : String) (user : User) (db : Db)
    (hnoself : ∀ f ∈ db.follows, f.following_id = user.id → ¬(f.follower_id = user.id)) :
    process_master_positions_cleared hub now user db
      = process_master_positions_cleared (hub.filter (fun x => x != user.id)) now user db := by
  unfold process_master_positions_cleared
  cases hm : user.is_master_trader with
  | false => rfl
  | true =>
    rw [if_neg (by decide), if_neg (by decide)]
    apply foldlCongrInv _ _ (fun acc => acc.1.follows = db.follows)
      (fun ct => ((db.follows.find? (fun f => f.id == ct.follow_id)).map Follow.following_id
          == some user.id) = true)
    · intro b a hb hq
      exact pmpcStep_hub_filter hub now user db hnoself b a hb hq
    · intro b a hb _
      exact (pmpcStep_ledgerOnly hub now user b a).2.1.trans hb
    · rfl
    · intro a ha
      have hcond := List.of_mem_filter ha
      simp only [Bool.and_eq_true] at hcond
      exact hcond.1.1

/-- Fixtures for the empty-snapshot claims: master (id 1) with an open trade,
follower (id 2) with an open mirror trade and an executed ledger record. -/
def c1master : User :=
  { id := 1, username := "m", api_key := "ca_m", is_active := true, is_master_trader := true }

def c1follower : User :=
  { id := 2, username := "f", api_key := "ca_f", is_active := true, is_master_trader := false }

def c1follow : Follow := { id := 10, follower_id := 2, following_id := 1, is_active := true }

def c1mtrade : Trade :=
  { id := 100, user_id := 1, ticket := "11046500", symbol := "EURUSD", trade_type := "buy",
    volume := 1, open_price := 1, current_price := 1, close_price := none,
    stop_loss := none, take_profit := none, unrealized_profit := 1, realized_profit := none,
    swap := 0, commission := 0, open_time := "2025-01-09T11:11:48", close_time := none,
    status := "open", comment := "" }

def c1ftrade : Trade :=
  { id := 200, user_id := 2, ticket := "22003300", symbol := "EURUSD", trade_type := "buy",
    volume := 1, open_price := 1, current_price := 1, close_price := none,
    stop_loss := none, take_profit := none, unrealized_profit := 1, realized_profit := none,
    swap := 0, commission := 0, open_time := "2025-01-09T11:12:00", close_time := none,
    status := "open", comment := "" }

def c1ct : CopyTrade :=
  { id := 300, master_trade_id := some 100, follower_trade_id := some 200, follow_id := 10,
    master_ticket := "11046500", follower_ticket := some "22003300", symbol := "EURUSD",
    trade_type := "buy", original_volume := 1, copied_volume := 1, copy_ratio := 1,
    copy_hash := some "9e58f21a83ec052691d315451c86cc232a4473fdc3142114d8ea1826b43da815",
    status := "executed", error_message := none, executed_at := some "2025-01-09T11:12:00" }

def c1db : Db :=
  { users := [c1master, c1follower], follows := [c1follow], trades := [c1mtrade, c1ftrade],
    copy_trades := [c1ct], connections := [], next_trade_id := 1000,
    next_copy_trade_id := 1000 }

/-- C1: the claim fails on the code.  With the master's client disconnected
(hub `[2]` holds only the follower) an empty market-open snapshot still runs
the mass-clear handling and dispatches a `close_trade` command to the
follower; and even with the master connected (hub `[1, 2]`) no master trade is
marked closed — both master and follower rows stay `open`. -/
theorem emptyClearIgnoresMasterGate_cex :
    ((handle_positions_update [2] "t1" c1master (.pdict [] true) c1db).2.map Command.ctype
      = ["close_trade"]) ∧
    ((handle_positions_update [1, 2] "t1" c1master (.pdict [] true) c1db).1.trades.map
        Trade.status = ["open", "open"]) := by
  decide

/-- C1 (amended): for an empty positions payload with `market_open = true`
ingested for a master, the mass-clear handling runs regardless of whether the
master's client is connected in the Session Hub (removing the master from the
hub changes nothing, absent self-follow edges), and no trade row of any user
is modified — in particular the master's open trades are not marked closed;
only `close_trade` commands to connected followers are dispatched. -/
theorem emptyClearUngatedAndTradesIntact (hub : List Nat) (now : String) (user : User)
    (db : Db) (hmaster : user.is_master_trader = true)
    (hnoself : ∀ f ∈ db.follows, f.following_id = user.id → ¬(f.follower_id = user.id)) :
    (handle_positions_update hub now user (.pdict [] true) db).1.trades = db.trades ∧
    handle_positions_update hub now user (.pdict [] true) db
      = handle_positions_update (hub.filter (fun x => x != user.id)) now user
          (.pdict [] true) db := by
  constructor
  · rw [handle_empty_eq_pmpc hub now user db hmaster]
    exact (process_master_positions_cleared_ledgerOnly hub now user db).2.2.1
  · rw [handle_empty_eq_pmpc hub now user db hmaster,
        handle_empty_eq_pmpc _ now user db hmaster]
    exact pmpc_hub_filter hub now user db hnoself

/-- Witness for the amended claim at the concrete fixture state. -/
theorem emptyClearUngatedAndTradesIntact_wit :
    (handle_positions_update [1, 2] "t1" c1master (.pdict [] true) c1db).1.trades
      = c1db.trades ∧
    handle_positions_update [1, 2] "t1" c1master (.pdict [] true) c1db
      = handle_positions_update ([1, 2].filter (fun x => x != c1master.id)) "t1" c1master
          (.pdict [] true) c1db := by
  exact emptyClearUngatedAndTradesIntact [1, 2] "t1" c1master c1db (by decide)
    (by
      intro f hf hfo
      simp only [c1db] at hf
      rw [List.mem_singleton] at hf
      subst hf
      decide)

/-! ## Claim 3 — pending ledger records and follower connectivity -/

def c3follow : Follow := { id := 11, follower_id := 2, following_id := 1, is_active := true }

def c3data : MasterTradeData :=
  { ticket := "11046500", symbol := "EURUSD", ttype := "buy", volume := 1,
    open_price := 1, sl := none, tp := none }

def c3db : Db :=
  { users := [c1master, c1follower], follows := [c3follow], trades := [c1mtrade],
    copy_trades := [], connections := [], next_trade_id := 1000, next_copy_trade_id := 1 }

/-- C3: the claim fails on the code.  With the follower's client offline
(empty hub), processing a new master position creates no ledger record at all
— `create_copy_trade` returns before writing the pending `CopyTrade`, so
nothing is left to backfill from the ledger on reconnect. -/
theorem offlineFollowerNoRecord_cex :
    process_new_master_trade [] "t1" c1master c3data c3db = (c3db, []) ∧
    create_copy_trade [] "t1" c3follow c3data c3db = (c3db, []) := by
  decide

/-- C3 (amended): a pending ledger record is created only when the follower's
client is connected at dispatch time; in that case exactly one pending
`CopyTrade` is appended and one `execute_trade` command is sent, while with
the follower's client disconnected `create_copy_trade` leaves the store
untouched and dispatches nothing. -/
theorem copyLedgerRequiresConnectedFollower :
    (∀ (hub : List Nat) (now : String) (follow : Follow) (d : MasterTradeData) (db : Db),
      isClientConnected hub follow.follower_id = false →
        create_copy_trade hub now follow d db = (db, [])) ∧
    (∀ (hub : List Nat) (now : String) (follow : Follow) (d : MasterTradeData) (db : Db)
        (mt : Trade),
      db.trades.find? (fun t =>
          t.ticket == d.ticket && t.user_id == follow.following_id && t.status == "open")
        = some mt →
      isClientConnected hub follow.follower_id = true →
      ∃ ct cmd, (create_copy_trade hub now follow d db).1.copy_trades
          = db.copy_trades ++ [ct] ∧ ct.status = "pending" ∧
        (create_copy_trade hub now follow d db).2 = [cmd] ∧
        cmd.ctype = "execute_trade" ∧ cmd.user_id = follow.follower_id) := by
  constructor
  · intro hub now follow d db hconn
    unfold create_copy_trade
    cases hfind : db.trades.find? (fun t =>
        t.ticket == d.ticket && t.user_id == follow.following_id && t.status == "open") with
    | none => rfl
    | some mt =>
      dsimp only
      rw [hconn]
      exact if_pos (by decide)
  · intro hub now follow d db mt hmt hconn
    unfold create_copy_trade
    rw [hmt]
    dsimp only
    rw [hconn]
    rw [if_neg (by decide), if_pos rfl]
    exact ⟨_, _, rfl, rfl, rfl, rfl, rfl⟩

/-- Witness for the amended claim: offline follower on the fixture store, and
online follower (hub `[2]`) yielding the pending record and command. -/
theorem copyLedgerRequiresConnectedFollower_wit :
    create_copy_trade [] "t1" c3follow c3data c3db = (c3db, []) ∧
    ∃ ct cmd, (create_copy_trade [2] "t1" c3follow c3data c3db).1.copy_trades
        = c3db.copy_trades ++ [ct] ∧ ct.status = "pending" ∧
      (create_copy_trade [2] "t1" c3follow c3data c3db).2 = [cmd] ∧
      cmd.ctype = "execute_trade" ∧ cmd.user_id = c3follow.follower_id :=
  ⟨copyLedgerRequiresConnectedFollower.1 [] "t1" c3follow c3data c3db (by decide),
   copyLedgerRequiresConnectedFollower.2 [2] "t1" c3follow c3data c3db c1mtrade (by decide)
     (by decide)⟩

/-! ## Claim 6 — margin-level sentinel and recompute -/

def c6conn : MT5Connection :=
  { user_id := 1, login := some 7, is_connected := true, account_balance := 1000,
    account_equity := 200, account_margin := 100, account_free_margin := 100,
    account_margin_level := 0, account_profit := 0, account_currency := "USD",
    last_sync := "t0" }

def c6data : AccountData :=
  { balance := 1000, equity := 200, margin := 100, free_margin := 100,
    margin_level := 200000, profit := 0, account_currency := "USD" }

def c6db : Db :=
  { users := [c1master], follows := [], trades := [], copy_trades := [],
    connections := [c6conn], next_trade_id := 1, next_copy_trade_id := 1 }

/-- C6: the claim fails on the code.  With margin 100 > 0 and the provided
margin level 200000 (non-physical, above 100000), ingestion stores 200000 as
provided — it does not recompute equity/margin·100 = 200. -/
theorem marginLevelStoredAsProvided_cex :
    ((handle_account_update c6data "t1" 1 c6db).connections.map
        MT5Connection.account_margin_level = [200000]) ∧
    c6data.equity / c6data.margin * 100 = 200 ∧ ¬((200000 : ℚ) = 200) := by
  refine ⟨by decide, ?_, by decide⟩
  show (200 : ℚ) / 100 * 100 = 200
  norm_num

/-- C6 (amended): ingestion stores the 999999 sentinel exactly when
margin ≤ 0 and otherwise stores the provided margin level unchanged; the
non-physical recompute to equity/margin·100 happens on the read path
(`/api/account/stats`), not at ingestion. -/
theorem marginLevelWriteSentinelReadRecompute :
    (∀ (d : AccountData) (now : String) (uid : Nat) (db : Db) (c : MT5Connection),
      db.connections.find? (fun x => x.user_id == uid) = some c →
      ((handle_account_update d now uid db).connections.find?
          (fun x => x.user_id == uid)).map MT5Connection.account_margin_level
        = some (if 0 < d.margin then d.margin_level else 999999)) ∧
    (∀ (db : Db) (uid : Nat) (c : MT5Connection),
      db.connections.find? (fun x => x.user_id == uid) = some c →
      0 < c.account_margin →
      (100000 < c.account_margin_level ∨ c.account_margin_level < 0) →
      stats_margin_level db uid = c.account_equity / c.account_margin * 100) := by
  constructor
  · intro d now uid db c hfind
    unfold handle_account_update
    rw [hfind]
    dsimp only
    rw [find?_updateFirst (fun x => x.user_id == uid) (applyAccountUpdate d now)
          (fun y => rfl) db.connections, hfind]
    rfl
  · intro db uid c hfind hm hnp
    unfold stats_margin_level
    rw [hfind]
    simp only [Option.map_some', Option.getD_some]
    rw [if_pos hm, if_pos hnp]

def c6conn2 : MT5Connection :=
  { c6conn with account_margin_level := 200000 }

def c6db2 : Db := { c6db with connections := [c6conn2] }

/-- Witness for the amended claim: the write path stores the provided 200000,
and the read path recomputes the non-physical stored level. -/
theorem marginLevelWriteSentinelReadRecompute_wit :
    (((handle_account_update c6data "t1" 1 c6db).connections.find?
        (fun x => x.user_id == 1)).map MT5Connection.account_margin_level
      = some (if 0 < c6data.margin then c6data.margin_level else 999999)) ∧
    stats_margin_level c6db2 1 = c6conn2.account_equity / c6conn2.account_margin * 100 :=
  ⟨marginLevelWriteSentinelReadRecompute.1 c6data "t1" 1 c6db c6conn (by decide),
   marginLevelWriteSentinelReadRecompute.2 c6db2 1 c6conn2 (by decide) (by decide)
     (Or.inl (by decide))⟩

/-! ## Claims 7 and 10 — endpoint behaviour on odd inputs -/

def emptyAccountData : AccountData :=
  { balance := 0, equity := 0, margin := 0, free_margin := 0, margin_level := 0,
    profit := 0, account_currency := "USD" }

def c7db : Db :=
  { users := [c1master], follows := [], trades := [], copy_trades := [],
    connections := [], next_trade_id := 1, next_copy_trade_id := 1 }

def c7sv : Server := { db := c7db, hub := [], api_key_cache := [] }

def c7req : EAReq :=
  { api_key := "ca_m", rtype := "bogus", user_id := none, username := none,
    connected := false, account_number := none, account := emptyAccountData,
    positions := .invalid, history := [] }

/-- C7: the claim fails on the code.  An authenticated request whose `type` is
not among the five known message types is not rejected with 400: the dispatch
chain has no final `else`, so the request falls through to the success
response. -/
theorem unknownTypeReturnsSuccess_cex :
    (receive_client_data "t1" c7req c7sv).2.1 = EAResp.success := by
  decide

/-- Derived falsity of each known-type test from non-membership. -/
theorem rtype_beq_false_of_not_mem (r : String) (hunk : ¬(r ∈ knownEATypes)) :
    (r == "connection_status") = false ∧ (r == "account_update") = false ∧
    (r == "positions_update") = false ∧ (r == "orders_update") = false ∧
    (r == "history_update") = false := by
  refine ⟨?_, ?_, ?_, ?_, ?_⟩ <;>
    · rw [beq_eq_false_iff_ne]
      intro h
      exact hunk (by rw [h]; decide)

/-- C7 (amended): for every authenticated `/api/ea/data` request passing the
identity checks whose `type` is not one of the five known message types, no
handler runs: the store is untouched, no command is dispatched, and the
request completes with the success response rather than a 400 validation
error. -/
theorem unknownTypeFallsThroughSuccess (now : String) (req : EAReq) (sv : Server)
    (user : User)
    (hkey : ¬(req.api_key = ""))
    (hauth : (get_user_by_api_key req.api_key sv.db.users sv.api_key_cache).1 = some user)
    (hid : (match req.user_id with
            | some uid => uid != 0 && uid != user.id
            | none => false) = false)
    (hun : (match req.username with
            | some un => un != "" && un != user.username
            | none => false) = false)
    (hunk : ¬(req.rtype ∈ knownEATypes)) :
    (receive_client_data now req sv).2.1 = EAResp.success ∧
    (receive_client_data now req sv).1.db = sv.db ∧
    (receive_client_data now req sv).2.2 = [] := by
  obtain ⟨h1, h2, h3, h4, h5⟩ := rtype_beq_false_of_not_mem req.rtype hunk
  have hkeyb : (req.api_key == "") = false := beq_eq_false_iff_ne.mpr hkey
  unfold receive_client_data
  rcases hA : get_user_by_api_key req.api_key sv.db.users sv.api_key_cache with ⟨o, c⟩
  rw [hA] at hauth
  dsimp only at hauth
  subst hauth
  rw [hkeyb, if_neg (by decide)]
  dsimp only
  rw [hid, if_neg (by decide), hun, if_neg (by decide)]
  unfold dispatchEA
  rw [h1, if_neg (by decide), h2, if_neg (by decide), h3, if_neg (by decide),
      h4, if_neg (by decide), h5, if_neg (by decide)]
  exact ⟨rfl, rfl, rfl⟩

/-- Witness: the concrete unknown-type request. -/
theorem unknownTypeFallsThroughSuccess_wit :
    (receive_client_data "t1" c7req c7sv).2.1 = EAResp.success ∧
    (receive_client_data "t1" c7req c7sv).1.db = c7sv.db ∧
    (receive_client_data "t1" c7req c7sv).2.2 = [] :=
  unknownTypeFallsThroughSuccess "t1" c7req c7sv c1master (by decide) (by decide)
    (by decide) (by decide) (by decide)

def c10req : EAReq := { c7req with rtype := "positions_update" }

/-- C10 (confirmed): a `positions_update` whose data is neither a list nor a
dict leaves the handler state untouched and the authenticated request still
completes with the success response. -/
theorem invalidPositionsEnvelopeNoOp :
    (∀ (hub : List Nat) (now : String) (user : User) (db : Db),
      handle_positions_update hub now user .invalid db = (db, [])) ∧
    (∀ (now : String) (req : EAReq) (sv : Server) (user : User),
      ¬(req.api_key = "") →
      (get_user_by_api_key req.api_key sv.db.users sv.api_key_cache).1 = some user →
      (match req.user_id with
       | some uid => uid != 0 && uid != user.id
       | none => false) = false →
      (match req.username with
       | some un => un != "" && un != user.username
       | none => false) = false →
      req.rtype = "positions_update" → req.positions = .invalid →
      (receive_client_data now req sv).2.1 = EAResp.success ∧
      (receive_client_data now req sv).1.db = sv.db ∧
      (receive_client_data now req sv).2.2 = []) := by
  constructor
  · intro hub now user db
    rfl
  · intro now req sv user hkey hauth hid hun hty hpos
    have hkeyb : (req.api_key == "") = false := beq_eq_false_iff_ne.mpr hkey
    unfold receive_client_data
    rcases hA : get_user_by_api_key req.api_key sv.db.users sv.api_key_cache with ⟨o, c⟩
    rw [hA] at hauth
    dsimp only at hauth
    subst hauth
    rw [hkeyb, if_neg (by decide)]
    dsimp only
    rw [hid, if_neg (by decide), hun, if_neg (by decide)]
    unfold dispatchEA
    rw [hty]
    rw [if_neg (by decide), if_neg (by decide), if_pos (by decide), hpos]
    exact ⟨rfl, rfl, rfl⟩

/-- Witness: the concrete invalid-envelope request. -/
theorem invalidPositionsEnvelopeNoOp_wit :
    handle_positions_update [] "t1" c1master .invalid c7db = (c7db, []) ∧
    ((receive_client_data "t1" c10req c7sv).2.1 = EAResp.success ∧
      (receive_client_data "t1" c10req c7sv).1.db = c7sv.db ∧
      (receive_client_data "t1" c10req c7sv).2.2 = []) :=
  ⟨invalidPositionsEnvelopeNoOp.1 [] "t1" c1master c7db,
   invalidPositionsEnvelopeNoOp.2 "t1" c10req c7sv c1master (by decide) (by decide)
     (by decide) (by decide) rfl rfl⟩

/-! ## Claim 8 — API key rotation revokes old keys -/

/-- A found element satisfies the search predicate. -/
theorem find?_sat {α : Type} (p : α → Bool) :
    ∀ (l : List α) (a : α), List.find? p l = some a → p a = true
  | [], a, h => by simp [List.find?] at h
  | b :: l, a, h => by
    cases hp : p b with
    | true =>
      rw [List.find?_cons_of_pos _ hp] at h
      injection h with h
      subst h
      exact hp
    | false =>
      rw [List.find?_cons_of_neg _ (by simp [hp])] at h
      exact find?_sat p l a h

/-- Decompose a successful `find?` into the unmatched prefix and the hit. -/
theorem find?_decompose {α : Type} (p : α → Bool) :
    ∀ (l : List α) (a : α), List.find? p l = some a →
      ∃ l1 l2, l = l1 ++ a :: l2 ∧ (∀ x ∈ l1, p x = false)
  | [], a, h => by simp [List.find?] at h
  | b :: l, a, h => by
    cases hp : p b with
    | true =>
      rw [List.find?_cons_of_pos _ hp] at h
      injection h with h
      subst h
      exact ⟨[], l, rfl, by intro x hx; cases hx⟩
    | false =>
      rw [List.find?_cons_of_neg _ (by simp [hp])] at h
      obtain ⟨l1, l2, rfl, hpre⟩ := find?_decompose p l a h
      refine ⟨b :: l1, l2, rfl, ?_⟩
      intro x hx
      rcases List.mem_cons.mp hx with rfl | hx
      · exact hp
      · exact hpre x hx

/-- `updateFirst` over a split with an unmatched prefix hits the junction. -/
theorem updateFirst_append {α : Type} (p : α → Bool) (f : α → α) :
    ∀ (l1 : List α) (y : α) (l2 : List α), (∀ x ∈ l1, p x = false) → p y = true →
      updateFirst p f (l1 ++ y :: l2) = l1 ++ f y :: l2
  | [], y, l2, _, hy => by simp [updateFirst, hy]
  | b :: l1, y, l2, hpre, hy => by
    have hb := hpre b (by simp)
    rw [List.cons_append]
    show (if p b = true then f b :: (l1 ++ y :: l2) else b :: updateFirst p f (l1 ++ y :: l2))
      = b :: (l1 ++ f y :: l2)
    rw [hb, if_neg (by decide),
        updateFirst_append p f l1 y l2 (fun x hx => hpre x (by simp [hx])) hy]

/-- `find?` over a split with an unmatched prefix returns the junction. -/
theorem find?_append_false {α : Type} (p : α → Bool) :
    ∀ (l1 : List α) (y : α) (l2 : List α), (∀ x ∈ l1, p x = false) → p y = true →
      List.find? p (l1 ++ y :: l2) = some y
  | [], y, l2, _, hy => by
    rw [List.nil_append]
    exact List.find?_cons_of_pos _ hy
  | b :: l1, y, l2, hpre, hy => by
    have hb := hpre b (by simp)
    rw [List.cons_append, List.find?_cons_of_neg _ (by simp [hb])]
    exact find?_append_false p l1 y l2 (fun x hx => hpre x (by simp [hx])) hy

/-- With an empty cache, authentication fails for a key no stored user holds. -/
theorem get_user_none_of_no_holder (k : String) (us : List User)
    (h : ∀ v ∈ us, ¬(v.api_key = k)) :
    (get_user_by_api_key k us []).1 = none := by
  have hfind : List.find? (fun u => u.api_key == k) us = none := by
    rw [List.find?_eq_none]
    intro v hv hbe
    exact h v hv (eq_of_beq hbe)
  unfold get_user_by_api_key
  by_cases hke : (k == "") = true
  · rw [if_pos hke]
  · rw [if_neg hke]
    by_cases hsw : (!(strStartsWith k "ca_")) = true
    · rw [if_pos hsw]
    · rw [if_neg hsw]
      dsimp only [cacheGet, List.find?, Option.map]
      rw [hfind]

/-- C8 (confirmed): key rotation revokes old keys immediately.  Starting from
any user store with unique rows and keys and any process-local cache (the old
key may well be cached at rotation time), after `regenerate_api_key` the old
key never authenticates (`get_user_by_api_key` yields no user, and the next
`/api/ea/data` request presenting it gets the 401 response); after a second
rotation neither of the two earlier keys authenticates. -/
theorem rotationRevokesOldKeys (users : List User) (cache : List (String × Nat))
    (uid : Nat) (u : User) (k1 k2 : String)
    (hfind : users.find? (fun v => v.id == uid) = some u)
    (hnd : users.Nodup)
    (hkeys : ∀ v ∈ users, ¬(v = u) → ¬(v.api_key = u.api_key))
    (hk1 : ∀ v ∈ users, ¬(v.api_key = k1))
    (hk2 : ∀ v ∈ users, ¬(v.api_key = k2))
    (hk12 : ¬(k1 = k2)) :
    (get_user_by_api_key u.api_key (regenerate_api_key uid k1 users cache).1
        (regenerate_api_key uid k1 users cache).2).1 = none ∧
    (get_user_by_api_key u.api_key
        (regenerate_api_key uid k2 (regenerate_api_key uid k1 users cache).1
          (regenerate_api_key uid k1 users cache).2).1
        (regenerate_api_key uid k2 (regenerate_api_key uid k1 users cache).1
          (regenerate_api_key uid k1 users cache).2).2).1 = none ∧
    (get_user_by_api_key k1
        (regenerate_api_key uid k2 (regenerate_api_key uid k1 users cache).1
          (regenerate_api_key uid k1 users cache).2).1
        (regenerate_api_key uid k2 (regenerate_api_key uid k1 users cache).1
          (regenerate_api_key uid k1 users cache).2).2).1 = none ∧
    (∀ (now : String) (req : EAReq) (db : Db) (hub : List Nat),
      req.api_key = u.api_key → ¬(u.api_key = "") →
      (receive_client_data now req
        { db := { db with users := (regenerate_api_key uid k1 users cache).1 },
          hub := hub,
          api_key_cache := (regenerate_api_key uid k1 users cache).2 }).2.1
        = EAResp.failure 401 "Invalid API key") := by
  obtain ⟨l1, l2, hsplit, hpre⟩ := find?_decompose _ users u hfind
  have pu : (u.id == uid) = true := find?_sat _ users u hfind
  have humem : u ∈ users := List.mem_of_find?_eq_some hfind
  have hreg1 : regenerate_api_key uid k1 users cache
      = (l1 ++ { u with api_key := k1 } :: l2, []) := by
    unfold regenerate_api_key
    rw [hfind]
    dsimp only [clear_all_api_key_cache]
    rw [hsplit, updateFirst_append _ _ l1 u l2 hpre pu]
  have hnotmem : u ∉ l2 := by
    rw [hsplit] at hnd
    have h2 := (List.nodup_append.mp hnd).2.1
    exact (List.nodup_cons.mp h2).1
  have hmem_l1 : ∀ v ∈ l1, v ∈ users := by
    intro v hv; rw [hsplit]; exact List.mem_append_left _ hv
  have hmem_l2 : ∀ v ∈ l2, v ∈ users := by
    intro v hv; rw [hsplit]
    exact List.mem_append_right _ (List.mem_cons_of_mem u hv)
  have hne_l1 : ∀ v ∈ l1, ¬(v = u) := by
    intro v hv he
    rw [he] at hv
    have := hpre u hv
    rw [pu] at this
    cases this
  have hne_l2 : ∀ v ∈ l2, ¬(v = u) := by
    intro v hv he
    rw [he] at hv
    exact hnotmem hv
  have husers1k0 : ∀ v ∈ l1 ++ { u with api_key := k1 } :: l2, ¬(v.api_key = u.api_key) := by
    intro v hv
    rcases List.mem_append.mp hv with hv1 | hv2
    · exact hkeys v (hmem_l1 v hv1) (hne_l1 v hv1)
    · rcases List.mem_cons.mp hv2 with rfl | hv3
      · intro hcontra
        exact hk1 u humem hcontra.symm
      · exact hkeys v (hmem_l2 v hv3) (hne_l2 v hv3)
  have hfind2 : (l1 ++ { u with api_key := k1 } :: l2).find? (fun v => v.id == uid)
      = some { u with api_key := k1 } := find?_append_false _ l1 _ l2 hpre pu
  have hreg2 : regenerate_api_key uid k2 (l1 ++ { u with api_key := k1 } :: l2) []
      = (l1 ++ { u with api_key := k2 } :: l2, []) := by
    unfold regenerate_api_key
    rw [hfind2]
    dsimp only [clear_all_api_key_cache]
    rw [updateFirst_append _ _ l1 ({ u with api_key := k1 }) l2 hpre pu]
  have husers2k0 : ∀ v ∈ l1 ++ { u with api_key := k2 } :: l2, ¬(v.api_key = u.api_key) := by
    intro v hv
    rcases List.mem_append.mp hv with hv1 | hv2
    · exact hkeys v (hmem_l1 v hv1) (hne_l1 v hv1)
    · rcases List.mem_cons.mp hv2 with rfl | hv3
      · intro hcontra
        exact hk2 u humem hcontra.symm
      · exact hkeys v (hmem_l2 v hv3) (hne_l2 v hv3)
  have husers2k1 : ∀ v ∈ l1 ++ { u with api_key := k2 } :: l2, ¬(v.api_key = k1) := by
    intro v hv
    rcases List.mem_append.mp hv with hv1 | hv2
    · exact hk1 v (hmem_l1 v hv1)
    · rcases List.mem_cons.mp hv2 with rfl | hv3
      · intro hcontra
        exact hk12 hcontra.symm
      · exact hk1 v (hmem_l2 v hv3)
  have haux1 : (get_user_by_api_key u.api_key (l1 ++ { u with api_key := k1 } :: l2) []).1
      = none := get_user_none_of_no_holder _ _ husers1k0
  refine ⟨?_, ?_, ?_, ?_⟩
  · rw [hreg1]
    exact haux1
  · rw [hreg1]
    dsimp only
    rw [hreg2]
    exact get_user_none_of_no_holder _ _ husers2k0
  · rw [hreg1]
    dsimp only
    rw [hreg2]
    exact get_user_none_of_no_holder _ _ husers2k1
  · intro now req db hub hreq hne
    have hkeyb : (req.api_key == "") = false :=
      beq_eq_false_iff_ne.mpr (by rw [hreq]; exact hne)
    unfold receive_client_data
    rw [hkeyb, if_neg (by decide)]
    dsimp only
    rw [hreq, hreg1]
    dsimp only
    rcases hA : get_user_by_api_key u.api_key (l1 ++ { u with api_key := k1 } :: l2) []
      with ⟨o, c⟩
    rw [hA] at haux1
    dsimp only at haux1
    subst haux1
    rfl

/-- Witness for the rotation claim: a two-user store whose old key is present
in the cache at rotation time; both stale keys fail after two rotations, and
the endpoint answers 401. -/
def c8other : User :=
  { id := 5, username := "other", api_key := "ca_other", is_active := true,
    is_master_trader := false }

def c8u : User :=
  { id := 6, username := "rotator", api_key := "ca_old", is_active := true,
    is_master_trader := false }

def c8req : EAReq := { c7req with api_key := "ca_old" }

theorem rotationRevokesOldKeys_wit :
    (get_user_by_api_key "ca_old"
        (regenerate_api_key 6 "ca_new1" [c8other, c8u] [("ca_old", 6)]).1
        (regenerate_api_key 6 "ca_new1" [c8other, c8u] [("ca_old", 6)]).2).1 = none ∧
    (receive_client_data "t1" c8req
      { db := { c7db with users := (regenerate_api_key 6 "ca_new1" [c8other, c8u]
                  [("ca_old", 6)]).1 },
        hub := [],
        api_key_cache := (regenerate_api_key 6 "ca_new1" [c8other, c8u]
                  [("ca_old", 6)]).2 }).2.1
      = EAResp.failure 401 "Invalid API key" := by
  have h := rotationRevokesOldKeys [c8other, c8u] [("ca_old", 6)] 6 c8u "ca_new1" "ca_new2"
    (by decide) (by decide)
    (by
      intro v hv hne
      rcases List.mem_cons.mp hv with rfl | hv2
      · decide
      · rcases List.mem_cons.mp hv2 with rfl | hv3
        · exact absurd rfl hne
        · cases hv3)
    (by
      intro v hv
      rcases List.mem_cons.mp hv with rfl | hv2
      · decide
      · rcases List.mem_cons.mp hv2 with rfl | hv3
        · decide
        · cases hv3)
    (by
      intro v hv
      rcases List.mem_cons.mp hv with rfl | hv2
      · decide
      · rcases List.mem_cons.mp hv2 with rfl | hv3
        · decide
        · cases hv3)
    (by decide)
  exact ⟨h.1, h.2.2.2 "t1" c8req c7db [] rfl (by decide)⟩

/-! ## Claim 9 — the copy hash is the SHA-256 of the master fields -/

/-- C9 (confirmed): every ledger record `create_copy_trade` appends carries
`copy_hash = SHA-256(master_username ++ "_" ++ master_ticket ++ "_" ++
master_open_time_iso)`, the master's username looked up from the store (with
the source's "Unknown" fallback) and the open time taken from the master
trade row. -/
theorem copyHashIsSha256OfMasterFields (hub : List Nat) (now : String) (follow : Follow)
    (d : MasterTradeData) (db : Db) (mt : Trade)
    (hmt : db.trades.find? (fun t =>
        t.ticket == d.ticket && t.user_id == follow.following_id && t.status == "open")
      = some mt)
    (hconn : isClientConnected hub follow.follower_id = true)
    (hot : (mt.open_time != "") = true) :
    ∃ ct, (create_copy_trade hub now follow d db).1.copy_trades = db.copy_trades ++ [ct] ∧
      ct.copy_hash = some (sha256Hex
        ((((db.users.find? (fun v => v.id == follow.following_id)).map User.username).getD
            "Unknown") ++ "_" ++ d.ticket ++ "_" ++ mt.open_time)) := by
  unfold create_copy_trade
  rw [hmt]
  dsimp only
  rw [hconn, if_neg (by decide), if_pos rfl, hot, if_pos rfl]
  exact ⟨_, rfl, rfl⟩

/-- Fixtures for the happy-path scenario's literal values. -/
def w9master : User :=
  { id := 9, username := "mariosat2", api_key := "ca_9", is_active := true,
    is_master_trader := true }

def w9follower : User :=
  { id := 4, username := "mariosat", api_key := "ca_4", is_active := true,
    is_master_trader := false }

def w9follow : Follow := { id := 40, follower_id := 4, following_id := 9, is_active := true }

def w9mt : Trade :=
  { id := 900, user_id := 9, ticket := "11046500", symbol := "EURUSD", trade_type := "buy",
    volume := 1, open_price := 1, current_price := 1, close_price := none,
    stop_loss := none, take_profit := none, unrealized_profit := 1, realized_profit := none,
    swap := 0, commission := 0, open_time := "2025-01-09T11:11:48", close_time := none,
    status := "open", comment := "" }

def w9d : MasterTradeData :=
  { ticket := "11046500", symbol := "EURUSD", ttype := "buy", volume := 1,
    open_price := 1, sl := none, tp := none }

def w9db : Db :=
  { users := [w9master, w9follower], follows := [w9follow], trades := [w9mt],
    copy_trades := [], connections := [], next_trade_id := 901, next_copy_trade_id := 1 }

set_option maxRecDepth 8000 in
/-- Witness at the scenario literals: the created record's hash is exactly
SHA-256("mariosat2_11046500_2025-01-09T11:11:48"). -/
theorem copyHashIsSha256OfMasterFields_wit :
    ∃ ct, (create_copy_trade [4] "t1" w9follow w9d w9db).1.copy_trades
        = w9db.copy_trades ++ [ct] ∧
      ct.copy_hash = some
        "9e58f21a83ec052691d315451c86cc232a4473fdc3142114d8ea1826b43da815" := by
  obtain ⟨ct, h1, h2⟩ := copyHashIsSha256OfMasterFields [4] "t1" w9follow w9d w9db w9mt
    (by decide) (by decide) (by decide)
  refine ⟨ct, h1, ?_⟩
  rw [h2]
  decide

/-! ## The trades-level view of positions ingestion

The per-position loop and the closure pass touch only the `trades` table and
its id counter; the ledger writes commute past them.  `tradesAfter` is the
induced action on `(trades, next_trade_id)`, against which the trade-store
claims are settled. -/

/-- The tickets the loop actually processes (non-empty `str(...)` forms). -/
def processedKeys (ps : List Position) : List String :=
  ps.filterMap (fun p => if p.ticket.toStr == "" then none else some p.ticket.toStr)

/-- The action of one loop iteration on the trade rows. -/
def upsertStep (now : String) (uid : Nat) (st : List Trade × Nat) (pos : Position) :
    List Trade × Nat :=
  if pos.ticket.toStr == "" then st
  else
    match st.1.find? (kmatch uid pos.ticket.toStr) with
    | some _ =>
      (updateFirst (kmatch uid pos.ticket.toStr) (applyOpenUpdate pos) st.1, st.2)
    | none =>
      (st.1 ++ [newOpenTrade uid st.2 now pos.ticket.toStr (rawTradeType pos.ptype) pos],
       st.2 + 1)

/-- The action of the closure pass on the trade rows (identity when the
master/market/connectivity gate is off). -/
def closeMapIf (gate : Bool) (now : String) (uid : Nat) (current : List String)
    (T : List Trade) : List Trade :=
  if gate then T.map (closeRowIf now uid current) else T

/-- The action of a whole positions ingestion on `(trades, next_trade_id)`. -/
def tradesAfter (hub : List Nat) (now : String) (user : User) (pd : PositionsData)
    (st : List Trade × Nat) : List Trade × Nat :=
  match pd with
  | .invalid => st
  | pd =>
    if pd.positions.isEmpty then st
    else
      let st1 := pd.positions.foldl (upsertStep now user.id) st
      (closeMapIf (user.is_master_trader && pd.marketOpen && isClientConnected hub user.id)
        now user.id (snapshotTickets pd.positions) st1.1, st1.2)

theorem trades_pair_of_ledgerOnly {db db' : Db} (h : ledgerOnly db db') :
    (db'.trades, db'.next_trade_id) = (db.trades, db.next_trade_id) := by
  rw [h.2.2.1, h.2.2.2.2]

theorem processPosition_trades (hub : List Nat) (now : String) (user : User)
    (acc : Db × List Command) (pos : Position) :
    ((processPosition hub now user acc pos).1.trades,
     (processPosition hub now user acc pos).1.next_trade_id)
      = upsertStep now user.id (acc.1.trades, acc.1.next_trade_id) pos := by
  unfold processPosition upsertStep
  by_cases ht : (pos.ticket.toStr == "") = true
  · rw [if_pos ht, if_pos ht]
  · rw [if_neg ht, if_neg ht]
    dsimp only
    cases hfind : acc.1.trades.find? (kmatch user.id pos.ticket.toStr) with
    | some existing =>
      dsimp only
      rw [trades_pair_of_ledgerOnly (linkPendingCopy_ledgerOnly _ _ _ _ _)]
    | none =>
      dsimp only
      by_cases hm : user.is_master_trader = true
      · rw [if_pos hm]
        dsimp only
        rw [trades_pair_of_ledgerOnly (ledgerOnly_trans (linkPendingCopy_ledgerOnly _ _ _ _ _)
              (process_new_master_trade_ledgerOnly _ _ _ _ _))]
      · rw [if_neg hm]
        rw [trades_pair_of_ledgerOnly (linkPendingCopy_ledgerOnly _ _ _ _ _)]

theorem foldProcess_trades (hub : List Nat) (now : String) (user : User) :
    ∀ (ps : List Position) (acc : Db × List Command),
      (((ps.foldl (processPosition hub now user) acc).1.trades,
        (ps.foldl (processPosition hub now user) acc).1.next_trade_id))
        = ps.foldl (upsertStep now user.id) (acc.1.trades, acc.1.next_trade_id)
  | [], acc => rfl
  | p :: ps, acc => by
    rw [List.foldl_cons, List.foldl_cons, ← processPosition_trades hub now user acc p]
    exact foldProcess_trades hub now user ps _

/-- Pointwise fixed rows make the map the identity. -/
theorem map_id_of_fix {α : Type} (f : α → α) :
    ∀ l : List α, (∀ x ∈ l, f x = x) → l.map f = l
  | [], _ => rfl
  | a :: l, h => by
    rw [List.map_cons, h a (by simp), map_id_of_fix f l (fun x hx => h x (by simp [hx]))]

theorem detectClosures_trades (hub : List Nat) (now : String) (user : User)
    (positions : List Position) (market_open : Bool) (st : Db × List Command) :
    ((detectClosures hub now user positions market_open st).1.trades,
     (detectClosures hub now user positions market_open st).1.next_trade_id)
      = (closeMapIf (user.is_master_trader && market_open && isClientConnected hub user.id)
          now user.id (snapshotTickets positions) st.1.trades, st.1.next_trade_id) := by
  unfold detectClosures closeMapIf
  by_cases hg : (user.is_master_trader && market_open) = true
  · rw [if_pos hg]
    by_cases hc : isClientConnected hub user.id = true
    · rw [if_pos hc]
      have hgate : (user.is_master_trader && market_open && isClientConnected hub user.id)
          = true := by rw [hg, hc]; rfl
      rw [hgate, if_pos rfl]
      dsimp only
      by_cases hmiss : (st.1.trades.filter
          (closeCond user.id (snapshotTickets positions))).isEmpty = true
      · rw [if_pos hmiss]
        have hnil : st.1.trades.filter (closeCond user.id (snapshotTickets positions))
            = [] := by
          rwa [List.isEmpty_iff] at hmiss
        have hfix : ∀ t ∈ st.1.trades,
            closeRowIf now user.id (snapshotTickets positions) t = t := by
          intro t htm
          have hnc := List.filter_eq_nil_iff.mp hnil t htm
          unfold closeRowIf
          rw [if_neg hnc]
        rw [map_id_of_fix _ _ hfix]
      · rw [if_neg hmiss]
        dsimp only
        rw [trades_pair_of_ledgerOnly (close_specific_follower_trades_ledgerOnly _ _ _ _ _)]
    · rw [if_neg hc]
      have hgate : (user.is_master_trader && market_open && isClientConnected hub user.id)
          = false := by
        rw [hg]
        cases hcc : isClientConnected hub user.id with
        | true => exact absurd hcc hc
        | false => rfl
      rw [hgate, if_neg (by decide)]
  · rw [if_neg hg]
    have hg' : (user.is_master_trader && market_open) = false := by
      cases hgg : (user.is_master_trader && market_open) with
      | true => exact absurd hgg hg
      | false => rfl
    have hgate : (user.is_master_trader && market_open && isClientConnected hub user.id)
        = false := by rw [hg', Bool.false_and]
    rw [hgate, if_neg (by decide)]

/-- The trade-store projection of a whole positions ingestion. -/
theorem handle_trades_proj (hub : List Nat) (now : String) (user : User)
    (pd : PositionsData) (db : Db) :
    ((handle_positions_update hub now user pd db).1.trades,
     (handle_positions_update hub now user pd db).1.next_trade_id)
      = tradesAfter hub now user pd (db.trades, db.next_trade_id) := by
  cases pd with
  | invalid => rfl
  | plist ps =>
    unfold handle_positions_update tradesAfter
    dsimp only [PositionsData.positions, PositionsData.marketOpen]
    by_cases he : ps.isEmpty = true
    · rw [if_pos he, if_pos he]
      by_cases hm : (true && user.is_master_trader) = true
      · rw [if_pos hm]
        exact trades_pair_of_ledgerOnly (process_master_positions_cleared_ledgerOnly _ _ _ _)
      · rw [if_neg hm]
    · rw [if_neg he, if_neg he]
      rw [detectClosures_trades]
      have hf := foldProcess_trades hub now user ps ((db, []) : Db × List Command)
      have hf1 := congrArg Prod.fst hf
      have hf2 := congrArg Prod.snd hf
      dsimp only at hf1 hf2
      rw [hf1, hf2]
  | pdict ps mo =>
    unfold handle_positions_update tradesAfter
    dsimp only [PositionsData.positions, PositionsData.marketOpen]
    by_cases he : ps.isEmpty = true
    · rw [if_pos he, if_pos he]
      by_cases hm : (mo && user.is_master_trader) = true
      · rw [if_pos hm]
        exact trades_pair_of_ledgerOnly (process_master_positions_cleared_ledgerOnly _ _ _ _)
      · rw [if_neg hm]
    · rw [if_neg he, if_neg he]
      rw [detectClosures_trades]
      have hf := foldProcess_trades hub now user ps ((db, []) : Db × List Command)
      have hf1 := congrArg Prod.fst hf
      have hf2 := congrArg Prod.snd hf
      dsimp only at hf1 hf2
      rw [hf1, hf2]

/-! ## Claim 2 — the closure gate and detached-master ingestion -/

/-- Membership after one upsert step: an untouched incoming row, the reopened
image of the first row matching the position's key, or the freshly created
row. -/
theorem mem_upsertStep {now : String} {uid : Nat} {st : List Trade × Nat}
    {pos : Position} {t : Trade} (ht : t ∈ (upsertStep now uid st pos).1) :
    t ∈ st.1 ∨
    (∃ y, y ∈ st.1 ∧ kmatch uid pos.ticket.toStr y = true ∧ t = applyOpenUpdate pos y) ∨
    ((pos.ticket.toStr == "") = false ∧
      t = newOpenTrade uid st.2 now pos.ticket.toStr (rawTradeType pos.ptype) pos) := by
  unfold upsertStep at ht
  by_cases he : (pos.ticket.toStr == "") = true
  · rw [if_pos he] at ht
    exact Or.inl ht
  · have he' : (pos.ticket.toStr == "") = false := by
      cases hx : (pos.ticket.toStr == "") with
      | true => exact absurd hx he
      | false => rfl
    rw [if_neg he] at ht
    cases hfind : st.1.find? (kmatch uid pos.ticket.toStr) with
    | some r =>
      rw [hfind] at ht
      dsimp only at ht
      rcases mem_updateFirst _ _ _ _ ht with h1 | ⟨y, hy, hpy, hxy⟩
      · exact Or.inl h1
      · exact Or.inr (Or.inl ⟨y, hy, hpy, hxy⟩)
    | none =>
      rw [hfind] at ht
      dsimp only at ht
      rcases List.mem_append.mp ht with h1 | h2
      · exact Or.inl h1
      · rw [List.mem_singleton] at h2
        exact Or.inr (Or.inr ⟨he', h2⟩)

/-- Both upsert branches force `status = "open"`: a closed row surviving the
loop was already among the incoming rows. -/
theorem upsert_fold_closed_mem (now : String) (uid : Nat) :
    ∀ (ps : List Position) (st : List Trade × Nat) (t : Trade),
      t ∈ (ps.foldl (upsertStep now uid) st).1 → t.status = "closed" → t ∈ st.1
  | [], _, _, ht, _ => ht
  | p :: ps, st, t, ht, hcl => by
    have h1 := upsert_fold_closed_mem now uid ps (upsertStep now uid st p) t ht hcl
    rcases mem_upsertStep h1 with h2 | ⟨y, _, _, rfl⟩ | ⟨_, rfl⟩
    · exact h2
    · have hs : (applyOpenUpdate p y).status = "open" := rfl
      rw [hs] at hcl
      exact absurd hcl (by decide)
    · have hs : (newOpenTrade uid st.2 now p.ticket.toStr (rawTradeType p.ptype) p).status
          = "open" := rfl
      rw [hs] at hcl
      exact absurd hcl (by decide)

/-- C2 (amended): the closure gate itself holds — while the owner's client is
detached from the Session Hub no trade row transitions to `closed` by
inference (every closed row after the ingestion was already a row of the
store) — but the claim's second half is false: a detached master's open-trade
set is still mutated by the upsert loop, which creates and reopens rows. -/
theorem noInferredCloseWhileDetached (hub : List Nat) (now : String) (user : User)
    (pd : PositionsData) (db : Db)
    (hdet : isClientConnected hub user.id = false) :
    ∀ t ∈ (handle_positions_update hub now user pd db).1.trades,
      t.status = "closed" → t ∈ db.trades := by
  intro t ht hcl
  have h1 := congrArg Prod.fst (handle_trades_proj hub now user pd db)
  dsimp only at h1
  rw [h1] at ht
  cases pd with
  | invalid => exact ht
  | plist ps =>
    unfold tradesAfter at ht
    dsimp only [PositionsData.positions, PositionsData.marketOpen] at ht
    by_cases he : ps.isEmpty = true
    · rw [if_pos he] at ht
      exact ht
    · rw [if_neg he] at ht
      dsimp only at ht
      rw [hdet, Bool.and_false] at ht
      unfold closeMapIf at ht
      rw [if_neg (by decide)] at ht
      exact upsert_fold_closed_mem now user.id ps (db.trades, db.next_trade_id) t ht hcl
  | pdict ps mo =>
    unfold tradesAfter at ht
    dsimp only [PositionsData.positions, PositionsData.marketOpen] at ht
    by_cases he : ps.isEmpty = true
    · rw [if_pos he] at ht
      exact ht
    · rw [if_neg he] at ht
      dsimp only at ht
      rw [hdet, Bool.and_false] at ht
      unfold closeMapIf at ht
      rw [if_neg (by decide)] at ht
      exact upsert_fold_closed_mem now user.id ps (db.trades, db.next_trade_id) t ht hcl

/-- Fixtures for the detached-master ingestion: the master of the Claim 1
block, one already-closed row and one open row, and a snapshot position with
the unseen ticket "42". -/
def c2pos : Position :=
  { ticket := .str "42", symbol := "EURUSD", ptype := .str "buy", volume := 1,
    open_price := 1, current_price := 1, profit := 0, swap := 0,
    open_time := some "2025-01-10T09:00:00", sl := none, tp := none }

def c2closed : Trade :=
  { id := 101, user_id := 1, ticket := "9", symbol := "EURUSD", trade_type := "buy",
    volume := 1, open_price := 1, current_price := 1, close_price := some 1,
    stop_loss := none, take_profit := none, unrealized_profit := 0,
    realized_profit := some 1, swap := 0, commission := 0,
    open_time := "2025-01-08T10:00:00", close_time := some "2025-01-08T12:00:00",
    status := "closed", comment := "" }

def c2db : Db :=
  { users := [c1master], follows := [], trades := [c2closed, c1mtrade],
    copy_trades := [], connections := [], next_trade_id := 1000, next_copy_trade_id := 1 }

/-- C2: the second half of the claim fails on the code.  With the master's
client detached (empty hub) a non-empty snapshot still mutates the master's
open-trade set: the upsert loop creates a new open row for the unseen ticket
"42", so ingestion while detached is not a no-op on the open set. -/
theorem detachedMasterOpenSetChanges_cex :
    isClientConnected [] c1master.id = false ∧
    ¬((handle_positions_update [] "t2" c1master (.pdict [c2pos] true) c2db).1.trades.filter
        (fun t => t.user_id == 1 && t.status == "open")
      = c2db.trades.filter (fun t => t.user_id == 1 && t.status == "open")) := by
  decide

/-- Witness for the gate half at the fixture store: the detachment hypothesis
holds on the empty hub, and the closed fixture row is indeed an incoming
row. -/
theorem noInferredCloseWhileDetached_wit :
    isClientConnected [] c1master.id = false ∧ c2closed ∈ c2db.trades :=
  ⟨by decide, noInferredCloseWhileDetached [] "t2" c1master (.pdict [c2pos] true) c2db
    (by decide) c2closed (by decide) rfl⟩

/-! ## Claim 5 — status coherence under ingestion -/

/-- The close-field coherence the ingestion maintains: a row is `closed`
exactly when its `close_time` is set. -/
def statusTimeCoherent (t : Trade) : Bool :=
  (t.status == "closed") == !(t.close_time == none)

theorem statusTimeCoherent_applyOpenUpdate (pos : Position) (t : Trade) :
    statusTimeCoherent (applyOpenUpdate pos t) = true := rfl

theorem statusTimeCoherent_newOpenTrade (uid tid : Nat) (now ticket ttype : String)
    (pos : Position) :
    statusTimeCoherent (newOpenTrade uid tid now ticket ttype pos) = true := rfl

theorem statusTimeCoherent_closeTradeRow (now : String) (t : Trade) :
    statusTimeCoherent (closeTradeRow now t) = true := by
  unfold closeTradeRow
  dsimp only
  by_cases h : (t.unrealized_profit != 0) = true
  · rw [if_pos h]
    rfl
  · rw [if_neg h]
    rfl

theorem statusTimeCoherent_closeRowIf (now : String) (uid : Nat) (current : List String)
    (t : Trade) (h : statusTimeCoherent t = true) :
    statusTimeCoherent (closeRowIf now uid current t) = true := by
  unfold closeRowIf
  by_cases hc : closeCond uid current t = true
  · rw [if_pos hc]
    exact statusTimeCoherent_closeTradeRow now t
  · rw [if_neg hc]
    exact h

theorem upsertStep_coherent (now : String) (uid : Nat) (st : List Trade × Nat)
    (pos : Position) (h : ∀ t ∈ st.1, statusTimeCoherent t = true) :
    ∀ t ∈ (upsertStep now uid st pos).1, statusTimeCoherent t = true := by
  intro t ht
  rcases mem_upsertStep ht with h1 | ⟨y, _, _, rfl⟩ | ⟨_, rfl⟩
  · exact h t h1
  · exact statusTimeCoherent_applyOpenUpdate pos y
  · exact statusTimeCoherent_newOpenTrade uid st.2 now pos.ticket.toStr
      (rawTradeType pos.ptype) pos

/-- C5 (amended): of the claimed three-way coherence only the close-time leg
is an invariant of positions ingestion: if every incoming row satisfies
`status = "closed" ⇔ close_time ≠ null`, so does every row after
`handle_positions_update`.  The realized-profit legs are false on the code: a
re-upserted open row carries `realized_profit = 0` (non-null), and a row
closed by the reconciler's diff with zero unrealized profit keeps
`realized_profit` null (see the counterexample). -/
theorem statusCloseTimeCoherencePreserved (hub : List Nat) (now : String) (user : User)
    (pd : PositionsData) (db : Db)
    (hco : ∀ t ∈ db.trades, statusTimeCoherent t = true) :
    ∀ t ∈ (handle_positions_update hub now user pd db).1.trades,
      statusTimeCoherent t = true := by
  intro t ht
  have h1 := congrArg Prod.fst (handle_trades_proj hub now user pd db)
  dsimp only at h1
  rw [h1] at ht
  cases pd with
  | invalid => exact hco t ht
  | plist ps =>
    unfold tradesAfter at ht
    dsimp only [PositionsData.positions, PositionsData.marketOpen] at ht
    by_cases he : ps.isEmpty = true
    · rw [if_pos he] at ht
      exact hco t ht
    · rw [if_neg he] at ht
      dsimp only at ht
      have hfold : ∀ x ∈ (ps.foldl (upsertStep now user.id)
          (db.trades, db.next_trade_id)).1, statusTimeCoherent x = true :=
        foldlInvariant (upsertStep now user.id)
          (fun st => ∀ x ∈ st.1, statusTimeCoherent x = true)
          (fun b a hb => upsertStep_coherent now user.id b a hb) ps
          (db.trades, db.next_trade_id) hco
      unfold closeMapIf at ht
      by_cases hg : (user.is_master_trader && true && isClientConnected hub user.id) = true
      · rw [if_pos hg] at ht
        rcases List.mem_map.mp ht with ⟨x, hx, rfl⟩
        exact statusTimeCoherent_closeRowIf now user.id (snapshotTickets ps) x (hfold x hx)
      · rw [if_neg hg] at ht
        exact hfold t ht
  | pdict ps mo =>
    unfold tradesAfter at ht
    dsimp only [PositionsData.positions, PositionsData.marketOpen] at ht
    by_cases he : ps.isEmpty = true
    · rw [if_pos he] at ht
      exact hco t ht
    · rw [if_neg he] at ht
      dsimp only at ht
      have hfold : ∀ x ∈ (ps.foldl (upsertStep now user.id)
          (db.trades, db.next_trade_id)).1, statusTimeCoherent x = true :=
        foldlInvariant (upsertStep now user.id)
          (fun st => ∀ x ∈ st.1, statusTimeCoherent x = true)
          (fun b a hb => upsertStep_coherent now user.id b a hb) ps
          (db.trades, db.next_trade_id) hco
      unfold closeMapIf at ht
      by_cases hg : (user.is_master_trader && mo && isClientConnected hub user.id) = true
      · rw [if_pos hg] at ht
        rcases List.mem_map.mp ht with ⟨x, hx, rfl⟩
        exact statusTimeCoherent_closeRowIf now user.id (snapshotTickets ps) x (hfold x hx)
      · rw [if_neg hg] at ht
        exact hfold t ht

/-- Fixtures: two open master rows (unrealized profit 0, realized null) and
the follower row of the Claim 1 block; the snapshot re-asserts ticket "7" and
omits ticket "9". -/
def c5open9 : Trade :=
  { id := 110, user_id := 1, ticket := "9", symbol := "EURUSD", trade_type := "buy",
    volume := 1, open_price := 1, current_price := 1, close_price := none,
    stop_loss := none, take_profit := none, unrealized_profit := 0, realized_profit := none,
    swap := 0, commission := 0, open_time := "2025-01-09T08:00:00", close_time := none,
    status := "open", comment := "" }

def c5open7 : Trade := { c5open9 with id := 111, ticket := "7" }

def c5pos : Position :=
  { ticket := .str "7", symbol := "EURUSD", ptype := .str "buy", volume := 1,
    open_price := 1, current_price := 1, profit := 0, swap := 0,
    open_time := some "2025-01-09T08:00:00", sl := none, tp := none }

def c5db : Db :=
  { users := [c1master], follows := [], trades := [c5open9, c5open7, c1ftrade],
    copy_trades := [], connections := [], next_trade_id := 1000, next_copy_trade_id := 1 }

/-- C5: the realized-profit legs of the claim fail on the code.  After one
ingestion by the connected master, the row whose ticket is missing from the
snapshot is closed with `close_time` set but `realized_profit` still null
(its unrealized profit was 0), and the re-upserted row is open with
`realized_profit` forced to the non-null 0. -/
theorem zeroProfitCloseRealizedLegFails_cex :
    ((handle_positions_update [1] "t5" c1master (.pdict [c5pos] true) c5db).1.trades.any
        (fun t => t.status == "closed" && !(t.close_time == none)
          && t.realized_profit == none)) = true ∧
    ((handle_positions_update [1] "t5" c1master (.pdict [c5pos] true) c5db).1.trades.any
        (fun t => t.status == "open" && t.realized_profit == some 0)) = true := by
  decide

/-- Witness for the preserved leg at the fixture store: the incoming rows are
coherent and the untouched follower row is coherent after the ingestion. -/
theorem statusCloseTimeCoherencePreserved_wit :
    statusTimeCoherent c1ftrade = true :=
  statusCloseTimeCoherencePreserved [1] "t5" c1master (.pdict [c5pos] true) c5db
    (by
      intro t htm
      have htm' : t ∈ [c5open9, c5open7, c1ftrade] := htm
      rcases List.mem_cons.mp htm' with rfl | htm2
      · decide
      · rcases List.mem_cons.mp htm2 with rfl | htm3
        · decide
        · rcases List.mem_cons.mp htm3 with rfl | htm4
          · decide
          · cases htm4)
    c1ftrade (by decide)

/-! ## Claim 4 — idempotence of positions ingestion

A second ingestion of the same payload finds every processed ticket already
present, so the loop only re-runs `applyOpenUpdate` on rows that already
reflect their position — which changes nothing but `realized_profit` (forced
to 0) — and the closure pass finds nothing new to close. -/

/-- Erase the `realized_profit` column (the one column a re-ingestion may
rewrite). -/
def eraseRealized (t : Trade) : Trade := { t with realized_profit := none }

/-- A payload ticket whose raw truthiness agrees with the nonemptiness of its
string form — every string or nonzero numeric ticket; only the numeric ticket
0 (keyed as "0" by the loop but dropped from the snapshot set) is excluded. -/
def ticketRegular (p : Position) : Bool := p.ticket.truthy == (p.ticket.toStr != "")

/-- The trade row already carries exactly the volatile fields of `pos`: the
open-upsert of `pos` can then change nothing but `realized_profit`. -/
def reflects (pos : Position) (t : Trade) : Prop :=
  t.status = "open" ∧ t.current_price = pos.current_price ∧
  t.unrealized_profit = pos.profit ∧ t.swap = pos.swap ∧
  t.close_time = none ∧ t.close_price = none

/-- The update-only restriction of the loop body (taken by every position
whose row already exists). -/
def updOnly (now : String) (uid : Nat) (L : List Trade) (pos : Position) : List Trade :=
  if pos.ticket.toStr == "" then L
  else updateFirst (kmatch uid pos.ticket.toStr) (applyOpenUpdate pos) L

theorem boolFalseOfNotTrue {b : Bool} (h : ¬(b = true)) : b = false := by
  cases hx : b with
  | true => exact absurd hx h
  | false => rfl

theorem reflects_applyOpenUpdate (pos : Position) (t : Trade) :
    reflects pos (applyOpenUpdate pos t) := ⟨rfl, rfl, rfl, rfl, rfl, rfl⟩

theorem reflects_newOpenTrade (uid tid : Nat) (now ticket ttype : String) (pos : Position) :
    reflects pos (newOpenTrade uid tid now ticket ttype pos) := ⟨rfl, rfl, rfl, rfl, rfl, rfl⟩

/-- On a row that reflects the position, the open-upsert only writes
`realized_profit`, so it vanishes under the erasure. -/
theorem eraseRealized_applyOpenUpdate_of_reflects (pos : Position) (t : Trade)
    (h : reflects pos t) :
    eraseRealized (applyOpenUpdate pos t) = eraseRealized t := by
  obtain ⟨h1, h2, h3, h4, h5, h6⟩ := h
  cases t with
  | mk i u tk sy tt vol op cp clp sl tp up rp sw cm ot ct stt cmt =>
    dsimp only at h1 h2 h3 h4 h5 h6
    subst h1 h2 h3 h4 h5 h6
    rfl

theorem kmatch_closeRowIf (uid2 : Nat) (k : String) (now : String) (uid : Nat)
    (cur : List String) (t : Trade) :
    kmatch uid2 k (closeRowIf now uid cur t) = kmatch uid2 k t := by
  unfold closeRowIf
  by_cases hc : closeCond uid cur t = true
  · rw [if_pos hc]
    unfold closeTradeRow
    dsimp only
    by_cases h : (t.unrealized_profit != 0) = true
    · rw [if_pos h]
      rfl
    · rw [if_neg h]
      rfl
  · rw [if_neg hc]

theorem closeRowIf_of_not_closeCond {now : String} {uid : Nat} {cur : List String}
    {t : Trade} (hc : closeCond uid cur t = false) : closeRowIf now uid cur t = t := by
  unfold closeRowIf
  rw [hc]
  rw [if_neg (by decide)]

theorem closeCond_closeTradeRow (now : String) (uid : Nat) (cur : List String) (t : Trade) :
    closeCond uid cur (closeTradeRow now t) = false := by
  unfold closeTradeRow
  dsimp only
  have hb : (("closed" : String) == "open") = false := rfl
  by_cases h : (t.unrealized_profit != 0) = true
  · rw [if_pos h]
    unfold closeCond
    dsimp only
    rw [hb, Bool.and_false, Bool.false_and]
  · rw [if_neg h]
    unfold closeCond
    dsimp only
    rw [hb, Bool.and_false, Bool.false_and]

theorem closeCond_closeRowIf (now : String) (uid : Nat) (cur : List String) (t : Trade) :
    closeCond uid cur (closeRowIf now uid cur t) = false := by
  unfold closeRowIf
  by_cases hc : closeCond uid cur t = true
  · rw [if_pos hc]
    exact closeCond_closeTradeRow now uid cur t
  · rw [if_neg hc]
    exact boolFalseOfNotTrue hc

theorem closeCond_eq_false_of_contains (uid : Nat) (cur : List String) (t : Trade)
    (h : cur.contains t.ticket = true) : closeCond uid cur t = false := by
  unfold closeCond
  rw [h, Bool.not_true, Bool.and_false]

theorem kmatch_disjoint (uid : Nat) (k k2 : String) (hne : ¬(k2 = k)) :
    ∀ y, kmatch uid k2 y = true → kmatch uid k y = false := by
  intro y hy
  simp only [kmatch, Bool.and_eq_true] at hy
  have ht : y.ticket = k2 := eq_of_beq hy.2
  unfold kmatch
  have hf : (y.ticket == k) = false := beq_eq_false_iff_ne.mpr (by rw [ht]; exact hne)
  rw [hf, Bool.and_false]

theorem contains_of_mem {α : Type} [BEq α] [LawfulBEq α] :
    ∀ (l : List α) (a : α), a ∈ l → l.contains a = true
  | [], a, h => absurd h (List.not_mem_nil a)
  | b :: l, a, h => by
    rw [List.contains_cons]
    rcases List.mem_cons.mp h with rfl | h2
    · rw [beq_self_eq_true, Bool.true_or]
    · rw [contains_of_mem l a h2, Bool.or_true]

/-- `find?` of an invariant predicate over a mapped list hits the image of the
original hit. -/
theorem find?_map_invariant {α : Type} (p : α → Bool) (f : α → α)
    (hf : ∀ y, p (f y) = p y) :
    ∀ (l : List α) (r : α), l.find? p = some r → (l.map f).find? p = some (f r)
  | [], r, h => by simp [List.find?] at h
  | a :: l, r, h => by
    cases hpa : p a with
    | true =>
      rw [List.find?_cons_of_pos _ hpa] at h
      injection h with h
      subst h
      rw [List.map_cons, List.find?_cons_of_pos _ (by rw [hf]; exact hpa)]
    | false =>
      rw [List.find?_cons_of_neg _ (by simp [hpa])] at h
      rw [List.map_cons, List.find?_cons_of_neg _ (by simp [hf, hpa])]
      exact find?_map_invariant p f hf l r h

/-- A hit in the left part survives appending on the right. -/
theorem find?_append_some {α : Type} (p : α → Bool) :
    ∀ (l1 l2 : List α) (r : α), l1.find? p = some r → (l1 ++ l2).find? p = some r
  | [], _, r, h => by simp [List.find?] at h
  | a :: l1, l2, r, h => by
    cases hpa : p a with
    | true =>
      rw [List.find?_cons_of_pos _ hpa] at h
      rw [List.cons_append, List.find?_cons_of_pos _ hpa]
      exact h
    | false =>
      rw [List.find?_cons_of_neg _ (by simp [hpa])] at h
      rw [List.cons_append, List.find?_cons_of_neg _ (by simp [hpa])]
      exact find?_append_some p l1 l2 r h

/-- An `updateFirst` whose update preserves a predicate preserves whether a
`find?` for that predicate succeeds. -/
theorem find?_isSome_updateFirst {α : Type} (p q : α → Bool) (f : α → α)
    (hf : ∀ y, p (f y) = p y) :
    ∀ l : List α, ((updateFirst q f l).find? p).isSome = (l.find? p).isSome
  | [] => rfl
  | a :: l => by
    by_cases hq : q a = true
    · simp only [updateFirst, hq, if_true]
      cases hpa : p a with
      | true =>
        rw [List.find?_cons_of_pos _ (by rw [hf]; exact hpa), List.find?_cons_of_pos _ hpa]
        rfl
      | false =>
        rw [List.find?_cons_of_neg _ (by simp [hf, hpa]),
            List.find?_cons_of_neg _ (by simp [hpa])]
    · have hq2 : q a = false := boolFalseOfNotTrue hq
      simp only [updateFirst, hq2]
      rw [if_neg (by decide)]
      cases hpa : p a with
      | true =>
        rw [List.find?_cons_of_pos _ hpa, List.find?_cons_of_pos _ hpa]
      | false =>
        rw [List.find?_cons_of_neg _ (by simp [hpa]), List.find?_cons_of_neg _ (by simp [hpa])]
        exact find?_isSome_updateFirst p q f hf l

/-- Mapping through an `updateFirst` whose effect on the hit vanishes under
`g` vanishes under `List.map g`. -/
theorem updateFirst_map_congr {α β : Type} (q : α → Bool) (f : α → α) (g : α → β) :
    ∀ (l : List α) (r : α), l.find? q = some r → g (f r) = g r →
      (updateFirst q f l).map g = l.map g
  | [], r, h, _ => by simp [List.find?] at h
  | a :: l, r, h, hg => by
    cases hqa : q a with
    | true =>
      rw [List.find?_cons_of_pos _ hqa] at h
      injection h with h
      subst h
      simp only [updateFirst, hqa, if_true, List.map_cons, hg]
    | false =>
      rw [List.find?_cons_of_neg _ (by simp [hqa])] at h
      simp only [updateFirst, hqa]
      rw [if_neg (by decide)]
      rw [List.map_cons, List.map_cons, updateFirst_map_congr q f g l r h hg]

theorem processedKeys_cons_empty {p : Position} {ps : List Position}
    (he : (p.ticket.toStr == "") = true) :
    processedKeys (p :: ps) = processedKeys ps := by
  unfold processedKeys
  rw [List.filterMap_cons]
  rw [if_pos he]

theorem processedKeys_cons_key {p : Position} {ps : List Position}
    (he : (p.ticket.toStr == "") = false) :
    processedKeys (p :: ps) = p.ticket.toStr :: processedKeys ps := by
  unfold processedKeys
  rw [List.filterMap_cons]
  rw [he]
  rw [if_neg (by decide)]

theorem snapshotTickets_cons_true {p : Position} {ps : List Position}
    (ht : p.ticket.truthy = true) :
    snapshotTickets (p :: ps) = p.ticket.toStr :: snapshotTickets ps := by
  unfold snapshotTickets
  rw [List.filterMap_cons]
  rw [ht]
  rw [if_pos rfl]

theorem snapshotTickets_cons_false {p : Position} {ps : List Position}
    (ht : p.ticket.truthy = false) :
    snapshotTickets (p :: ps) = snapshotTickets ps := by
  unfold snapshotTickets
  rw [List.filterMap_cons]
  rw [ht]
  rw [if_neg (by decide)]

theorem mem_processedKeys_of_mem {p : Position} {ps : List Position} (hp : p ∈ ps)
    (he : (p.ticket.toStr == "") = false) : p.ticket.toStr ∈ processedKeys ps := by
  unfold processedKeys
  rw [List.mem_filterMap]
  refine ⟨p, hp, ?_⟩
  dsimp only
  rw [he]
  rw [if_neg (by decide)]

/-- On regular tickets, the loop's key set and the closure pass's snapshot
set coincide. -/
theorem processedKeys_eq_snapshot :
    ∀ ps : List Position, (∀ p ∈ ps, ticketRegular p = true) →
      processedKeys ps = snapshotTickets ps
  | [], _ => rfl
  | p :: ps, h => by
    have hreg : p.ticket.truthy = (p.ticket.toStr != "") := by
      have hx := h p (List.mem_cons_self p ps)
      unfold ticketRegular at hx
      exact eq_of_beq hx
    have ih := processedKeys_eq_snapshot ps (fun q hq => h q (List.mem_cons_of_mem p hq))
    by_cases he : (p.ticket.toStr == "") = true
    · have htr : p.ticket.truthy = false := by
        rw [hreg, show (p.ticket.toStr != "") = !(p.ticket.toStr == "") from rfl, he,
          Bool.not_true]
      rw [processedKeys_cons_empty he, snapshotTickets_cons_false htr, ih]
    · have he2 : (p.ticket.toStr == "") = false := boolFalseOfNotTrue he
      have htr : p.ticket.truthy = true := by
        rw [hreg, show (p.ticket.toStr != "") = !(p.ticket.toStr == "") from rfl, he2,
          Bool.not_false]
      rw [processedKeys_cons_key he2, snapshotTickets_cons_true htr, ih]

/-- With the position's row already present, the loop body is exactly its
update-only restriction and the id counter is untouched. -/
theorem upsertStep_eq_updOnly (now : String) (uid : Nat) (st : List Trade × Nat)
    (pos : Position)
    (hp : (pos.ticket.toStr == "") = false →
      (st.1.find? (kmatch uid pos.ticket.toStr)).isSome = true) :
    upsertStep now uid st pos = (updOnly now uid st.1 pos, st.2) := by
  unfold upsertStep updOnly
  by_cases he : (pos.ticket.toStr == "") = true
  · rw [if_pos he, if_pos he]
  · have he2 : (pos.ticket.toStr == "") = false := boolFalseOfNotTrue he
    rw [if_neg he, if_neg he]
    cases hfind : st.1.find? (kmatch uid pos.ticket.toStr) with
    | some r => rfl
    | none =>
      have h2 := hp he2
      rw [hfind] at h2
      exact absurd h2 (by decide)

theorem presence_updOnly (now : String) (uid uid2 : Nat) (k : String) (L : List Trade)
    (pos : Position) (h : (L.find? (kmatch uid2 k)).isSome = true) :
    ((updOnly now uid L pos).find? (kmatch uid2 k)).isSome = true := by
  unfold updOnly
  by_cases he : (pos.ticket.toStr == "") = true
  · rw [if_pos he]
    exact h
  · rw [if_neg he]
    rw [find?_isSome_updateFirst (kmatch uid2 k) (kmatch uid pos.ticket.toStr)
      (applyOpenUpdate pos) (fun y => rfl) L]
    exact h

/-- When every processed key is already present, the whole loop is its
update-only restriction. -/
theorem fold_upsert_eq_fold_updOnly (now : String) (uid : Nat) :
    ∀ (ps : List Position) (st : List Trade × Nat),
      (∀ p ∈ ps, (p.ticket.toStr == "") = false →
        (st.1.find? (kmatch uid p.ticket.toStr)).isSome = true) →
      ps.foldl (upsertStep now uid) st = (ps.foldl (updOnly now uid) st.1, st.2)
  | [], _, _ => rfl
  | p :: ps, st, h => by
    rw [List.foldl_cons, List.foldl_cons,
      upsertStep_eq_updOnly now uid st p (h p (List.mem_cons_self p ps))]
    exact fold_upsert_eq_fold_updOnly now uid ps (updOnly now uid st.1 p, st.2)
      (fun q hq he => by
        exact presence_updOnly now uid uid (q.ticket.toStr) st.1 p
          (h q (List.mem_cons_of_mem p hq) he))

/-- The loop never disturbs the row of a key it does not process. -/
theorem fold_upsert_find_off (now : String) (uid : Nat) (k : String) :
    ∀ (ps : List Position) (st : List Trade × Nat) (r : Trade),
      (k ∈ processedKeys ps → False) →
      st.1.find? (kmatch uid k) = some r →
      ((ps.foldl (upsertStep now uid) st).1.find? (kmatch uid k)) = some r
  | [], _, _, _, h => h
  | p :: ps, st, r, hk, h => by
    by_cases he : (p.ticket.toStr == "") = true
    · have hstep : upsertStep now uid st p = st := by
        unfold upsertStep
        rw [if_pos he]
      rw [List.foldl_cons, hstep]
      exact fold_upsert_find_off now uid k ps st r
        (fun hm => hk (by rw [processedKeys_cons_empty he]; exact hm)) h
    · have he2 : (p.ticket.toStr == "") = false := boolFalseOfNotTrue he
      have hne : ¬(p.ticket.toStr = k) := by
        intro heq
        exact hk (by rw [processedKeys_cons_key he2, heq]; exact List.mem_cons_self k _)
      have hstep : ((upsertStep now uid st p).1.find? (kmatch uid k)) = some r := by
        unfold upsertStep
        rw [if_neg he]
        cases hfind : st.1.find? (kmatch uid (p.ticket.toStr)) with
        | some x =>
          dsimp only
          rw [find?_updateFirst_disjoint (kmatch uid k) (kmatch uid (p.ticket.toStr))
            (applyOpenUpdate p) (kmatch_disjoint uid k (p.ticket.toStr) hne)
            (fun y => rfl) st.1]
          exact h
        | none =>
          dsimp only
          exact find?_append_some _ st.1 _ r h
      rw [List.foldl_cons]
      exact fold_upsert_find_off now uid k ps (upsertStep now uid st p) r
        (fun hm => hk (by rw [processedKeys_cons_key he2]; exact List.mem_cons_of_mem _ hm))
        hstep

/-- After the loop, the row of every processed position reflects it. -/
theorem fold_upsert_find_reflects (now : String) (uid : Nat) :
    ∀ (ps : List Position) (st : List Trade × Nat) (p : Position),
      p ∈ ps → (p.ticket.toStr == "") = false → (processedKeys ps).Nodup →
      ∃ r, ((ps.foldl (upsertStep now uid) st).1.find? (kmatch uid (p.ticket.toStr)))
          = some r ∧ reflects p r
  | [], _, p, hp, _, _ => absurd hp (List.not_mem_nil p)
  | q :: ps, st, p, hp, he, hnd => by
    rcases List.mem_cons.mp hp with rfl | hps
    · have hknotin : p.ticket.toStr ∈ processedKeys ps → False := by
        intro hm
        rw [processedKeys_cons_key he] at hnd
        exact (List.nodup_cons.mp hnd).1 hm
      have hstep : ∃ r, ((upsertStep now uid st p).1.find? (kmatch uid (p.ticket.toStr)))
          = some r ∧ reflects p r := by
        unfold upsertStep
        rw [if_neg (by rw [he]; exact (by decide))]
        cases hfind : st.1.find? (kmatch uid (p.ticket.toStr)) with
        | some x =>
          dsimp only
          refine ⟨applyOpenUpdate p x, ?_, reflects_applyOpenUpdate p x⟩
          rw [find?_updateFirst (kmatch uid (p.ticket.toStr)) (applyOpenUpdate p)
            (fun y => rfl) st.1, hfind]
          rfl
        | none =>
          dsimp only
          refine ⟨newOpenTrade uid st.2 now (p.ticket.toStr) (rawTradeType p.ptype) p, ?_,
            reflects_newOpenTrade uid st.2 now (p.ticket.toStr) (rawTradeType p.ptype) p⟩
          have hall : ∀ x ∈ st.1, kmatch uid (p.ticket.toStr) x = false := by
            intro x hx
            have h2 := List.find?_eq_none.mp hfind x hx
            exact boolFalseOfNotTrue h2
          have hkm : kmatch uid (p.ticket.toStr)
              (newOpenTrade uid st.2 now (p.ticket.toStr) (rawTradeType p.ptype) p)
                = true := by
            simp [kmatch, newOpenTrade]
          exact find?_append_false _ st.1 _ [] hall hkm
      obtain ⟨r, hr, hrefl⟩ := hstep
      refine ⟨r, ?_, hrefl⟩
      rw [List.foldl_cons]
      exact fold_upsert_find_off now uid (p.ticket.toStr) ps (upsertStep now uid st p) r
        hknotin hr
    · have hnd2 : (processedKeys ps).Nodup := by
        by_cases hq : (q.ticket.toStr == "") = true
        · rw [processedKeys_cons_empty hq] at hnd
          exact hnd
        · have hq2 : (q.ticket.toStr == "") = false := boolFalseOfNotTrue hq
          rw [processedKeys_cons_key hq2] at hnd
          exact (List.nodup_cons.mp hnd).2
      have ih := fold_upsert_find_reflects now uid ps (upsertStep now uid st q) p hps he hnd2
      rw [List.foldl_cons]
      exact ih

/-- Re-running the update-only loop on rows that already reflect their
positions changes only `realized_profit` columns. -/
theorem fold_updOnly_eraseRealized (now : String) (uid : Nat) :
    ∀ (ps : List Position) (L : List Trade),
      (∀ p ∈ ps, (p.ticket.toStr == "") = false →
        ∃ r, L.find? (kmatch uid (p.ticket.toStr)) = some r ∧ reflects p r) →
      (processedKeys ps).Nodup →
      (ps.foldl (updOnly now uid) L).map eraseRealized = L.map eraseRealized
  | [], L, _, _ => rfl
  | p :: ps, L, h, hnd => by
    rw [List.foldl_cons]
    by_cases he : (p.ticket.toStr == "") = true
    · have hL : updOnly now uid L p = L := by
        unfold updOnly
        rw [if_pos he]
      rw [hL]
      refine fold_updOnly_eraseRealized now uid ps L
        (fun q hq he2 => h q (List.mem_cons_of_mem p hq) he2) ?_
      rw [processedKeys_cons_empty he] at hnd
      exact hnd
    · have he2 : (p.ticket.toStr == "") = false := boolFalseOfNotTrue he
      obtain ⟨r, hr, hrefl⟩ := h p (List.mem_cons_self p ps) he2
      have hL : updOnly now uid L p
          = updateFirst (kmatch uid (p.ticket.toStr)) (applyOpenUpdate p) L := by
        unfold updOnly
        rw [if_neg he]
      rw [hL]
      rw [processedKeys_cons_key he2] at hnd
      have hnotin := (List.nodup_cons.mp hnd).1
      have hnd2 := (List.nodup_cons.mp hnd).2
      have hmap : (updateFirst (kmatch uid (p.ticket.toStr)) (applyOpenUpdate p) L).map
          eraseRealized = L.map eraseRealized :=
        updateFirst_map_congr _ _ _ L r hr
          (eraseRealized_applyOpenUpdate_of_reflects p r hrefl)
      have hrest : ∀ q ∈ ps, (q.ticket.toStr == "") = false →
          ∃ r2, (updateFirst (kmatch uid (p.ticket.toStr)) (applyOpenUpdate p) L).find?
            (kmatch uid (q.ticket.toStr)) = some r2 ∧ reflects q r2 := by
        intro q hq he3
        obtain ⟨r2, hr2, hrefl2⟩ := h q (List.mem_cons_of_mem p hq) he3
        refine ⟨r2, ?_, hrefl2⟩
        have hne : ¬(p.ticket.toStr = q.ticket.toStr) := by
          intro heq
          apply hnotin
          rw [heq]
          exact mem_processedKeys_of_mem hq he3
        rw [find?_updateFirst_disjoint (kmatch uid (q.ticket.toStr))
          (kmatch uid (p.ticket.toStr)) (applyOpenUpdate p)
          (kmatch_disjoint uid (q.ticket.toStr) (p.ticket.toStr) hne) (fun y => rfl) L]
        exact hr2
      rw [fold_updOnly_eraseRealized now uid ps _ hrest hnd2, hmap]

/-- The update-only loop keeps every row outside the closure condition when
every processed key sits in the snapshot set. -/
theorem fold_updOnly_noclose (now : String) (uid : Nat) (snap : List String) :
    ∀ (ps : List Position) (L : List Trade),
      (∀ p ∈ ps, (p.ticket.toStr == "") = false → p.ticket.toStr ∈ snap) →
      (∀ t ∈ L, closeCond uid snap t = false) →
      ∀ t ∈ ps.foldl (updOnly now uid) L, closeCond uid snap t = false
  | [], _, _, hL => hL
  | p :: ps, L, hk, hL => by
    rw [List.foldl_cons]
    refine fold_updOnly_noclose now uid snap ps (updOnly now uid L p)
      (fun q hq he => hk q (List.mem_cons_of_mem p hq) he) ?_
    intro t htm
    unfold updOnly at htm
    by_cases he : (p.ticket.toStr == "") = true
    · rw [if_pos he] at htm
      exact hL t htm
    · have he2 : (p.ticket.toStr == "") = false := boolFalseOfNotTrue he
      rw [if_neg he] at htm
      rcases mem_updateFirst _ _ _ _ htm with h1 | ⟨y, hy, hpy, rfl⟩
      · exact hL t h1
      · simp only [kmatch, Bool.and_eq_true] at hpy
        have ht : y.ticket = p.ticket.toStr := eq_of_beq hpy.2
        have hcont : snap.contains (applyOpenUpdate p y).ticket = true := by
          show snap.contains y.ticket = true
          rw [ht]
          exact contains_of_mem snap _ (hk p (List.mem_cons_self p ps) he2)
        exact closeCond_eq_false_of_contains uid snap _ hcont

/-- The non-empty ingestion pipeline applied twice: the second pass only
rewrites `realized_profit` columns and leaves the id counter alone. -/
theorem ingest_core (now : String) (uid : Nat) (gate : Bool) (ps : List Position)
    (st : List Trade × Nat)
    (hnd : (processedKeys ps).Nodup)
    (htk : ∀ p ∈ ps, ticketRegular p = true) :
    (closeMapIf gate now uid (snapshotTickets ps)
        (ps.foldl (upsertStep now uid)
          (closeMapIf gate now uid (snapshotTickets ps)
             (ps.foldl (upsertStep now uid) st).1,
           (ps.foldl (upsertStep now uid) st).2)).1).map eraseRealized
      = (closeMapIf gate now uid (snapshotTickets ps)
          (ps.foldl (upsertStep now uid) st).1).map eraseRealized ∧
    (ps.foldl (upsertStep now uid)
        (closeMapIf gate now uid (snapshotTickets ps)
           (ps.foldl (upsertStep now uid) st).1,
         (ps.foldl (upsertStep now uid) st).2)).2
      = (ps.foldl (upsertStep now uid) st).2 := by
  have hks : processedKeys ps = snapshotTickets ps := processedKeys_eq_snapshot ps htk
  have hA : ∀ p ∈ ps, (p.ticket.toStr == "") = false →
      ∃ r, ((closeMapIf gate now uid (snapshotTickets ps)
          (ps.foldl (upsertStep now uid) st).1).find? (kmatch uid p.ticket.toStr)) = some r
        ∧ reflects p r := by
    intro p hp he
    obtain ⟨r, hr, hrefl⟩ := fold_upsert_find_reflects now uid ps st p hp he hnd
    unfold closeMapIf
    by_cases hg : gate = true
    · rw [if_pos hg]
      have hcc : closeCond uid (snapshotTickets ps) r = false := by
        have hkm := find?_sat _ _ _ hr
        simp only [kmatch, Bool.and_eq_true] at hkm
        have ht : r.ticket = p.ticket.toStr := eq_of_beq hkm.2
        have hmem : p.ticket.toStr ∈ snapshotTickets ps := by
          rw [← hks]
          exact mem_processedKeys_of_mem hp he
        have hcont : (snapshotTickets ps).contains r.ticket = true := by
          rw [ht]
          exact contains_of_mem _ _ hmem
        exact closeCond_eq_false_of_contains uid _ r hcont
      refine ⟨r, ?_, hrefl⟩
      have hmapped := find?_map_invariant (kmatch uid p.ticket.toStr)
        (closeRowIf now uid (snapshotTickets ps))
        (fun y => kmatch_closeRowIf uid (p.ticket.toStr) now uid (snapshotTickets ps) y)
        ((ps.foldl (upsertStep now uid) st).1) r hr
      rw [hmapped, closeRowIf_of_not_closeCond hcc]
    · rw [if_neg hg]
      exact ⟨r, hr, hrefl⟩
  have hpres : ∀ p ∈ ps, (p.ticket.toStr == "") = false →
      (((closeMapIf gate now uid (snapshotTickets ps)
          (ps.foldl (upsertStep now uid) st).1)).find? (kmatch uid p.ticket.toStr)).isSome
        = true := by
    intro p hp he
    obtain ⟨r, hr, _⟩ := hA p hp he
    rw [hr]
    rfl
  have hreplay := fold_upsert_eq_fold_updOnly now uid ps
      (closeMapIf gate now uid (snapshotTickets ps) (ps.foldl (upsertStep now uid) st).1,
       (ps.foldl (upsertStep now uid) st).2)
      (fun p hp he => hpres p hp he)
  have her := fold_updOnly_eraseRealized now uid ps
      (closeMapIf gate now uid (snapshotTickets ps) (ps.foldl (upsertStep now uid) st).1)
      (fun p hp he => hA p hp he) hnd
  constructor
  · rw [hreplay]
    dsimp only
    by_cases hg : gate = true
    · have hnc0 : ∀ t ∈ (closeMapIf gate now uid (snapshotTickets ps)
          (ps.foldl (upsertStep now uid) st).1),
          closeCond uid (snapshotTickets ps) t = false := by
        intro t htm
        unfold closeMapIf at htm
        rw [if_pos hg] at htm
        rcases List.mem_map.mp htm with ⟨x, _, rfl⟩
        exact closeCond_closeRowIf now uid (snapshotTickets ps) x
      have hnc : ∀ t ∈ ps.foldl (updOnly now uid)
          (closeMapIf gate now uid (snapshotTickets ps)
            (ps.foldl (upsertStep now uid) st).1),
          closeCond uid (snapshotTickets ps) t = false :=
        fold_updOnly_noclose now uid (snapshotTickets ps) ps _
          (fun p hp he => by rw [← hks]; exact mem_processedKeys_of_mem hp he) hnc0
      have hid : closeMapIf gate now uid (snapshotTickets ps)
          (ps.foldl (updOnly now uid)
            (closeMapIf gate now uid (snapshotTickets ps)
              (ps.foldl (upsertStep now uid) st).1))
          = ps.foldl (updOnly now uid)
              (closeMapIf gate now uid (snapshotTickets ps)
                (ps.foldl (upsertStep now uid) st).1) := by
        unfold closeMapIf
        rw [if_pos hg]
        exact map_id_of_fix _ _ (fun t htm => closeRowIf_of_not_closeCond (hnc t htm))
      rw [hid, her]
    · have hid : ∀ L : List Trade, closeMapIf gate now uid (snapshotTickets ps) L = L := by
        intro L
        unfold closeMapIf
        rw [if_neg hg]
      rw [hid, hid]
      rw [hid] at her
      exact her
  · rw [hreplay]

/-- C4 at the trade-store projection: a second ingestion of the same payload
(with pairwise-distinct regular tickets) only rewrites `realized_profit`. -/
theorem tradesAfter_idem_mod (hub : List Nat) (now : String) (user : User)
    (pd : PositionsData) (st : List Trade × Nat)
    (hnd : (processedKeys pd.positions).Nodup)
    (htk : ∀ p ∈ pd.positions, ticketRegular p = true) :
    (tradesAfter hub now user pd (tradesAfter hub now user pd st)).1.map eraseRealized
      = (tradesAfter hub now user pd st).1.map eraseRealized ∧
    (tradesAfter hub now user pd (tradesAfter hub now user pd st)).2
      = (tradesAfter hub now user pd st).2 := by
  cases pd with
  | invalid => exact ⟨rfl, rfl⟩
  | plist ps =>
    by_cases he : ps.isEmpty = true
    · have h1 : tradesAfter hub now user (.plist ps) st = st := by
        show (if ps.isEmpty = true then st else _) = st
        rw [if_pos he]
      rw [h1, h1]
      exact ⟨rfl, rfl⟩
    · have h2 : ∀ s : List Trade × Nat, tradesAfter hub now user (.plist ps) s
          = (closeMapIf (user.is_master_trader && true && isClientConnected hub user.id)
              now user.id (snapshotTickets ps) (ps.foldl (upsertStep now user.id) s).1,
             (ps.foldl (upsertStep now user.id) s).2) := by
        intro s
        show (if ps.isEmpty = true then s else _) = _
        rw [if_neg he]
        rfl
      rw [h2, h2]
      exact ingest_core now user.id _ ps st hnd htk
  | pdict ps mo =>
    by_cases he : ps.isEmpty = true
    · have h1 : tradesAfter hub now user (.pdict ps mo) st = st := by
        show (if ps.isEmpty = true then st else _) = st
        rw [if_pos he]
      rw [h1, h1]
      exact ⟨rfl, rfl⟩
    · have h2 : ∀ s : List Trade × Nat, tradesAfter hub now user (.pdict ps mo) s
          = (closeMapIf (user.is_master_trader && mo && isClientConnected hub user.id)
              now user.id (snapshotTickets ps) (ps.foldl (upsertStep now user.id) s).1,
             (ps.foldl (upsertStep now user.id) s).2) := by
        intro s
        show (if ps.isEmpty = true then s else _) = _
        rw [if_neg he]
        rfl
      rw [h2, h2]
      exact ingest_core now user.id _ ps st hnd htk

/-- C4 (amended): positions ingestion is idempotent only modulo
`realized_profit`: for a payload with pairwise-distinct regular tickets,
applying `handle_positions_update` twice yields the same trade rows as
applying it once except in the `realized_profit` column (which the re-upsert
forces to 0 on rows created by the first pass), and the same id counter.
Exact idempotence of the Trade Store is false (see the counterexample). -/
theorem doubleIngestIdempotentModuloRealized (hub : List Nat) (now : String) (user : User)
    (pd : PositionsData) (db : Db)
    (hnd : (processedKeys pd.positions).Nodup)
    (htk : ∀ p ∈ pd.positions, ticketRegular p = true) :
    (handle_positions_update hub now user pd
        (handle_positions_update hub now user pd db).1).1.trades.map eraseRealized
      = (handle_positions_update hub now user pd db).1.trades.map eraseRealized ∧
    (handle_positions_update hub now user pd
        (handle_positions_update hub now user pd db).1).1.next_trade_id
      = (handle_positions_update hub now user pd db).1.next_trade_id := by
  have hproj1 := handle_trades_proj hub now user pd db
  have h11 := congrArg Prod.fst hproj1
  have h12 := congrArg Prod.snd hproj1
  dsimp only at h11 h12
  have hproj2 := handle_trades_proj hub now user pd (handle_positions_update hub now user pd db).1
  have h21 := congrArg Prod.fst hproj2
  have h22 := congrArg Prod.snd hproj2
  dsimp only at h21 h22
  rw [hproj1] at h21 h22
  obtain ⟨hm, hn⟩ := tradesAfter_idem_mod hub now user pd (db.trades, db.next_trade_id) hnd htk
  constructor
  · rw [h21, h11]
    exact hm
  · rw [h22, h12]
    exact hn

/-- Fixtures for the double-ingestion claims: a plain (non-master) user and a
single-position payload with the fresh ticket "77". -/
def c4user : User :=
  { id := 3, username := "solo", api_key := "ca_3", is_active := true,
    is_master_trader := false }

def c4pos : Position :=
  { ticket := .str "77", symbol := "EURUSD", ptype := .str "buy", volume := 1,
    open_price := 1, current_price := 1, profit := 1, swap := 0,
    open_time := some "2025-01-11T10:00:00", sl := none, tp := none }

def c4db : Db :=
  { users := [c4user], follows := [], trades := [], copy_trades := [],
    connections := [], next_trade_id := 1, next_copy_trade_id := 1 }

/-- C4: the claim fails on the code.  Ingesting the same snapshot twice does
not reproduce the Trade Store of a single ingestion: the first pass creates
the row with `realized_profit = null`, the second re-upserts it and forces
`realized_profit = 0`. -/
theorem doubleIngestChangesRealized_cex :
    ¬((handle_positions_update [3] "t7" c4user (.pdict [c4pos] true)
        (handle_positions_update [3] "t7" c4user (.pdict [c4pos] true) c4db).1).1.trades
      = (handle_positions_update [3] "t7" c4user (.pdict [c4pos] true) c4db).1.trades) := by
  decide

/-- Witness for the amended claim at the fixture payload: the tickets are
distinct and regular, and double ingestion matches single ingestion up to
`realized_profit` erasure. -/
theorem doubleIngestIdempotentModuloRealized_wit :
    (processedKeys [c4pos]).Nodup ∧
    ((handle_positions_update [3] "t7" c4user (.pdict [c4pos] true)
        (handle_positions_update [3] "t7" c4user (.pdict [c4pos] true) c4db).1).1.trades.map
          eraseRealized
      = (handle_positions_update [3] "t7" c4user (.pdict [c4pos] true) c4db).1.trades.map
          eraseRealized) :=
  ⟨by decide,
   (doubleIngestIdempotentModuloRealized [3] "t7" c4user (.pdict [c4pos] true) c4db
     (by decide) (by decide)).1⟩

end CopyArena
